import Mathlib

/-!
Verification of the relay-and-shape subsystem of a spec-aware HTTP proxy.

The development shallowly embeds the TypeScript sources:
  * `src/routes/index.tsx` — the `/api/relay` route: `buildTargetUrl`,
    `coerceBody`, `isHopByHopHeader`, `isSafeTarget` and the POST handler;
  * `src/lib/openapiShape.ts` — the OpenAPI shape reducer and its caches;
  * `src/lib/urlState.ts` and `src/lib/base64url.ts` — the URL state codec.

Platform primitives the code calls (the WHATWG `URL` class, `Headers`,
`JSON.parse` / `JSON.stringify`, `btoa` / `atob`, `localeCompare`, and the
`pako` deflate library) are modelled by executable Lean functions; each model
carries a comment describing the modelling choices and their scope.
Strings are treated as sequences of Unicode scalar values (Lean `Char`);
JavaScript UTF-16 surrogate-pair artefacts are outside the model.
-/

set_option maxHeartbeats 1000000

/-! ## Basic character and string utilities -/

/-- ASCII lower-casing of one character, as `String.prototype.toLowerCase`
acts on ASCII input (hostnames and header names in this code are ASCII). -/
def asciiLowerChar (c : Char) : Char :=
  if 'A' ≤ c ∧ c ≤ 'Z' then Char.ofNat (c.toNat + 32) else c

/-- ASCII upper-casing of one character, as `String.prototype.toUpperCase`
acts on ASCII input. -/
def asciiUpperChar (c : Char) : Char :=
  if 'a' ≤ c ∧ c ≤ 'z' then Char.ofNat (c.toNat - 32) else c

def asciiLower (s : String) : String := ⟨s.data.map asciiLowerChar⟩

def asciiUpper (s : String) : String := ⟨s.data.map asciiUpperChar⟩

def isAsciiDigit (c : Char) : Bool := '0' ≤ c ∧ c ≤ '9'

/-- Decimal value of a digit string (the effect of JavaScript `Number` on a
string of ASCII decimal digits). -/
def decimalValue (l : List Char) : Nat :=
  l.foldl (fun acc c => acc * 10 + (c.toNat - '0'.toNat)) 0

/-- Does `sub` occur as a contiguous sublist of `l`?  Models
`String.prototype.includes`. -/
def listContainsSub (l sub : List Char) : Bool :=
  if sub.isPrefixOf l then true
  else match l with
    | [] => sub.isEmpty
    | _ :: t => listContainsSub t sub

/-- `a.includes(b)` on strings. -/
def strIncludes (a b : String) : Bool := listContainsSub a.data b.data

/-- `a.endsWith(b)` on strings. -/
def strEndsWith (a b : String) : Bool := b.data.isSuffixOf a.data

/-! ## The WHATWG URL model

The code manipulates URLs through the platform `URL` class.  We model a
parsed URL as a record of its components.  `host` is the serialized hostname
exactly as the `hostname` getter returns it: lower-cased, and for an IPv6
literal still wrapped in its square brackets.  The model does not perform
IPv4 canonicalisation (`0x7f.1` → `127.0.0.1`) or IDNA/punycode mapping;
theorems that depend on the literal shape of a hostname therefore carry a
canonical-hostname hypothesis where it matters. -/

structure Url where
  scheme : String
  host : String
  port : Option Nat
  path : String
  query : Option String
  deriving Repr, DecidableEq

/-- A convenience constructor for concrete URLs in statements. -/
def mkUrl (scheme host path : String) : Url :=
  { scheme := scheme, host := host, port := none, path := path, query := none }

/-! ## Host Safety Guard (`isSafeTarget`, src/routes/index.tsx lines 756-774) -/

/-- The four parts of a hostname that matches the regular expression
`^\d+\.\d+\.\d+\.\d+$`: exactly four dot-separated non-empty runs of ASCII
digits.  Returns `none` when the hostname has any other shape. -/
def splitListOn (d : Char) : List Char → List (List Char)
  | [] => [[]]
  | c :: rest =>
    if c == d then [] :: splitListOn d rest
    else
      match splitListOn d rest with
      | s :: ss => (c :: s) :: ss
      | [] => [[c]]

def quadParts (host : String) : Option (List Char × List Char × List Char × List Char) :=
  match splitListOn '.' host.data with
  | [a, b, c, d] =>
    if !a.isEmpty && a.all isAsciiDigit &&
       !b.isEmpty && b.all isAsciiDigit &&
       !c.isEmpty && c.all isAsciiDigit &&
       !d.isEmpty && d.all isAsciiDigit then
      some (a, b, c, d)
    else none
  | _ => none

/-- `isSafeTarget` from `src/routes/index.tsx`.  The source compares
`url.protocol` against `'http:'` / `'https:'`; the model stores the scheme
without its trailing colon, so the comparison is against `"http"` /
`"https"`.  `Number(n)` on a run of decimal digits is its decimal value. -/
def isSafeTarget (u : Url) : Bool :=
  if !(u.scheme == "http" || u.scheme == "https") then false
  else
    let host := asciiLower u.host
    if host == "localhost" || strEndsWith host ".localhost" then false
    else if host == "0.0.0.0" || host == "127.0.0.1" || host == "::1" then false
    else if host == "169.254.169.254" then false
    else
      match quadParts host with
      | some (a, b, _, _) =>
        if decimalValue a == 10 then false
        else if decimalValue a == 192 && decimalValue b == 168 then false
        else if decimalValue a == 172 && 16 ≤ decimalValue b && decimalValue b ≤ 31 then false
        else true
      | none => true

/-- The rejection condition exactly as claim C2 words it: scheme not http or
https; hostname (case-insensitively) `localhost` or ending in `.localhost`;
hostname `0.0.0.0`, `127.0.0.1` or `::1`; hostname `169.254.169.254`; or the
hostname is a literal dotted-quad IPv4 address (four octets, each at most
255) lying in `10.0.0.0/8`, `192.168.0.0/16` or `172.16.0.0/12`. -/
def claimC2Rejects (u : Url) : Bool :=
  let host := asciiLower u.host
  !(u.scheme == "http" || u.scheme == "https") ||
  (host == "localhost" || strEndsWith host ".localhost") ||
  (host == "0.0.0.0" || host == "127.0.0.1" || host == "::1") ||
  host == "169.254.169.254" ||
  (match quadParts host with
   | some (a, b, c, d) =>
     decimalValue a ≤ 255 && decimalValue b ≤ 255 &&
     decimalValue c ≤ 255 && decimalValue d ≤ 255 &&
     (decimalValue a == 10 ||
      (decimalValue a == 192 && decimalValue b == 168) ||
      (decimalValue a == 172 && 16 ≤ decimalValue b && decimalValue b ≤ 31))
   | none => false)

/-- A hostname is quad-canonical when, if it is shaped like a dotted quad of
digit runs, each run's value fits in an octet.  Every hostname produced by
the WHATWG URL parser has this property: a digit-quad hostname is parsed as
an IPv4 address and the parse fails when an octet exceeds 255. -/
def hostQuadOctetsValid (host : String) : Bool :=
  match quadParts (asciiLower host) with
  | some (a, b, c, d) =>
    decimalValue a ≤ 255 && decimalValue b ≤ 255 &&
    decimalValue c ≤ 255 && decimalValue d ≤ 255
  | none => true

/-! ## UTF-8 and percent-encoding -/

/-- UTF-8 encoding of one Unicode scalar value, written with division and
remainder (they agree with the usual bit operations on these ranges). -/
def utf8EncodeChar (c : Char) : List Nat :=
  let n := c.toNat
  if n < 0x80 then [n]
  else if n < 0x800 then [0xC0 + n / 64, 0x80 + n % 64]
  else if n < 0x10000 then [0xE0 + n / 4096, 0x80 + n / 64 % 64, 0x80 + n % 64]
  else [0xF0 + n / 262144, 0x80 + n / 4096 % 64, 0x80 + n / 64 % 64, 0x80 + n % 64]

def utf8Encode (s : String) : List Nat := s.data.flatMap utf8EncodeChar

/-- The replacement character U+FFFD. -/
def replChar : Char := Char.ofNat 0xFFFD

/-- A scalar value built from `n` when valid, U+FFFD otherwise. -/
def charOrRepl (n : Nat) : Char :=
  if n < 0xD800 ∨ (0xE000 ≤ n ∧ n < 0x110000) then Char.ofNat n else replChar

def isUtf8Cont (b : Nat) : Bool := 0x80 ≤ b && b < 0xC0

/-! Lossy UTF-8 decoding: malformed sequences become U+FFFD (a malformed
lead consumes one byte and decoding resumes at the next byte), as both
`pako`'s string conversion and `URLSearchParams` decoding behave on the
inputs at issue. -/
mutual

def utf8DecodeLossy : List Nat → List Char
  | [] => []
  | b1 :: t1 =>
    if b1 < 0x80 then charOrRepl b1 :: utf8DecodeLossy t1
    else if 0xC0 ≤ b1 && b1 < 0xE0 then utf8DecodeCont2 b1 t1
    else if 0xE0 ≤ b1 && b1 < 0xF0 then utf8DecodeCont3 b1 t1
    else if 0xF0 ≤ b1 && b1 < 0xF8 then utf8DecodeCont4 b1 t1
    else replChar :: utf8DecodeLossy t1
termination_by l => 2 * l.length + 1
decreasing_by all_goals simp_arith

def utf8DecodeCont2 (b1 : Nat) : List Nat → List Char
  | b2 :: t2 =>
    if isUtf8Cont b2 then
      charOrRepl ((b1 - 0xC0) * 64 + (b2 - 0x80)) :: utf8DecodeLossy t2
    else replChar :: utf8DecodeLossy (b2 :: t2)
  | [] => [replChar]
termination_by l => 2 * l.length + 2
decreasing_by all_goals simp_arith

def utf8DecodeCont3 (b1 : Nat) : List Nat → List Char
  | b2 :: b3 :: t3 =>
    if isUtf8Cont b2 && isUtf8Cont b3 then
      charOrRepl ((b1 - 0xE0) * 4096 + (b2 - 0x80) * 64 + (b3 - 0x80)) :: utf8DecodeLossy t3
    else replChar :: utf8DecodeLossy (b2 :: b3 :: t3)
  | _ => [replChar]
termination_by l => 2 * l.length + 2
decreasing_by all_goals simp_arith

def utf8DecodeCont4 (b1 : Nat) : List Nat → List Char
  | b2 :: b3 :: b4 :: t4 =>
    if isUtf8Cont b2 && isUtf8Cont b3 && isUtf8Cont b4 then
      charOrRepl ((b1 - 0xF0) * 262144 + (b2 - 0x80) * 4096 + (b3 - 0x80) * 64 + (b4 - 0x80))
        :: utf8DecodeLossy t4
    else replChar :: utf8DecodeLossy (b2 :: b3 :: b4 :: t4)
  | _ => [replChar]
termination_by l => 2 * l.length + 2
decreasing_by all_goals simp_arith

end

def hexUpperDigit (n : Nat) : Char :=
  Char.ofNat (if n < 10 then 48 + n else 55 + n)

/-- `%XX` escape of one byte, uppercase hex as the URL machinery emits. -/
def percentByte (b : Nat) : List Char := ['%', hexUpperDigit (b / 16), hexUpperDigit (b % 16)]

def percentEncodeCharUtf8 (c : Char) : List Char := (utf8EncodeChar c).flatMap percentByte

/-- The characters `encodeURIComponent` leaves unescaped:
`A–Z a–z 0–9 - _ . ! ~ * ' ( )`. -/
def isUriComponentUnescaped (c : Char) : Bool :=
  ('A' ≤ c && c ≤ 'Z') || ('a' ≤ c && c ≤ 'z') || isAsciiDigit c ||
  c == '-' || c == '_' || c == '.' || c == '!' || c == '~' ||
  c == '*' || c == '\'' || c == '(' || c == ')'

/-- `encodeURIComponent` on one character. -/
def encodeURIComponentChar (c : Char) : List Char :=
  if isUriComponentUnescaped c then [c] else percentEncodeCharUtf8 c

/-- `encodeURIComponent` on a string. -/
def encodeURIComponent (s : String) : String := ⟨s.data.flatMap encodeURIComponentChar⟩

/-- The WHATWG path percent-encode set: C0 controls, space, `"`, `#`, `<`,
`>`, `?`, `` ` ``, `{`, `}`, DEL and all non-ASCII. -/
def inPathEncodeSet (c : Char) : Bool :=
  c.toNat < 0x20 || c == ' ' || c == '"' || c == '#' || c == '<' || c == '>' ||
  c == '?' || c.toNat == 0x60 || c.toNat == 0x7B || c.toNat == 0x7D || c.toNat ≥ 0x7F

def encodePathChar (c : Char) : List Char :=
  if inPathEncodeSet c then percentEncodeCharUtf8 c else [c]

/-- The WHATWG special-query percent-encode set: C0 controls, space, `"`,
`#`, `<`, `>`, `'`, DEL and all non-ASCII. -/
def inSpecialQueryEncodeSet (c : Char) : Bool :=
  c.toNat < 0x20 || c == ' ' || c == '"' || c == '#' || c == '<' || c == '>' ||
  c == '\'' || c.toNat ≥ 0x7F

def encodeQueryChars (l : List Char) : List Char :=
  l.flatMap fun c => if inSpecialQueryEncodeSet c then percentEncodeCharUtf8 c else [c]

/-! ## WHATWG URL parsing and relative resolution

The model covers the portion of the WHATWG basic URL parser exercised by the
relay (special schemes with an authority, plus opaque-path non-special
URLs).  Not modelled: leading/trailing C0-and-space trimming, tab/newline
stripping, IPv4/IPv6 canonicalisation, IDNA.  An IPv6 literal hostname keeps
its square brackets, as the `hostname` getter serialises it. -/

def isSchemeStartChar (c : Char) : Bool :=
  ('A' ≤ c && c ≤ 'Z') || ('a' ≤ c && c ≤ 'z')

def isSchemeChar (c : Char) : Bool :=
  isSchemeStartChar c || isAsciiDigit c || c == '+' || c == '-' || c == '.'

def splitSchemeAux (acc : List Char) : List Char → Option (String × List Char)
  | [] => none
  | c :: rest =>
    if c == ':' then some (asciiLower ⟨acc.reverse⟩, rest)
    else if isSchemeChar c then splitSchemeAux (c :: acc) rest
    else none

/-- Split `scheme:rest` when the input begins with a well-formed scheme. -/
def splitScheme : List Char → Option (String × List Char)
  | [] => none
  | c :: rest => if isSchemeStartChar c then splitSchemeAux [c] rest else none

def isSpecialScheme (s : String) : Bool :=
  s == "ftp" || s == "file" || s == "http" || s == "https" || s == "ws" || s == "wss"

def defaultPort (scheme : String) : Option Nat :=
  if scheme == "http" || scheme == "ws" then some 80
  else if scheme == "https" || scheme == "wss" then some 443
  else if scheme == "ftp" then some 21
  else none

def isSlashLike (c : Char) : Bool := c == '/' || c == '\\'

/-- Take the authority chunk: everything up to the first `/`, `\`, `?` or
`#`; returns it together with the rest (delimiter included). -/
def splitAuthority : List Char → List Char × List Char
  | [] => ([], [])
  | c :: rest =>
    if isSlashLike c || c == '?' || c == '#' then ([], c :: rest)
    else
      let (a, r) := splitAuthority rest
      (c :: a, r)

/-- Drop the userinfo: the host-port part is everything after the last `@`. -/
def afterLastAt (l : List Char) : List Char :=
  match l.reverse.takeWhile (fun c => c != '@') with
  | r => r.reverse

/-- Split `host[:port]`.  An IPv6 literal `[...]` keeps its brackets and the
port follows the closing bracket. -/
def splitHostPort (l : List Char) : List Char × Option (List Char) :=
  match l with
  | '[' :: rest =>
    let inside := rest.takeWhile (fun c => c != ']')
    let after := rest.dropWhile (fun c => c != ']')
    match after with
    | ']' :: ':' :: p => ('[' :: inside ++ [']'], some p)
    | _ => ('[' :: inside ++ [']'], none)
  | _ =>
    let h := l.takeWhile (fun c => c != ':')
    let after := l.dropWhile (fun c => c != ':')
    match after with
    | ':' :: p => (h, some p)
    | _ => (h, none)

/-- Parse a port chunk: empty means no port; digits below 65536 are the
port, with the scheme's default port normalised away; anything else fails. -/
def parsePort (scheme : String) : Option (List Char) → Option (Option Nat)
  | none => some none
  | some [] => some none
  | some ds =>
    if ds.all isAsciiDigit then
      let v := decimalValue ds
      if v < 65536 then
        if defaultPort scheme == some v then some none else some (some v)
      else none
    else none

def isSingleDotSeg (seg : List Char) : Bool :=
  seg == ['.'] || asciiLower ⟨seg⟩ == "%2e"

def isDoubleDotSeg (seg : List Char) : Bool :=
  let low := asciiLower ⟨seg⟩
  low == ".." || low == ".%2e" || low == "%2e." || low == "%2e%2e"

/-- Split on `/` (and `\` for special URLs) into raw segments. -/
def splitSegments (special : Bool) : List Char → List (List Char)
  | [] => [[]]
  | c :: rest =>
    if c == '/' || (special && c == '\\') then [] :: splitSegments special rest
    else
      match splitSegments special rest with
      | s :: ss => (c :: s) :: ss
      | [] => [[c]]

/-- WHATWG dot-segment handling over a segment list: `..` pops the previous
segment, `.` disappears, and either one at the end leaves a trailing empty
segment. -/
def normalizeSegmentsAux (acc : List (List Char)) : List (List Char) → List (List Char)
  | [] => acc.reverse
  | [seg] =>
    if isDoubleDotSeg seg then (acc.drop 1).reverse ++ [[]]
    else if isSingleDotSeg seg then acc.reverse ++ [[]]
    else acc.reverse ++ [seg]
  | seg :: rest =>
    if isDoubleDotSeg seg then normalizeSegmentsAux (acc.drop 1) rest
    else if isSingleDotSeg seg then normalizeSegmentsAux acc rest
    else normalizeSegmentsAux (seg :: acc) rest

/-- Percent-encode each segment and join them into a serialized path. -/
def joinPathSegments (segs : List (List Char)) : String :=
  ⟨segs.flatMap (fun seg => '/' :: seg.flatMap encodePathChar)⟩

/-- Path chars of a path-and-query chunk: up to the first `?` or `#`. -/
def takePathChars (l : List Char) : List Char :=
  l.takeWhile (fun c => c != '?' && c != '#')

/-- Query chars: between the first `?` and the first `#` after it; `none`
when there is no `?` before the fragment. -/
def takeQueryChars (l : List Char) : Option (List Char) :=
  let beforeHash := l.takeWhile (fun c => c != '#')
  match beforeHash.dropWhile (fun c => c != '?') with
  | '?' :: q => some q
  | _ => none

/-- Segments of an absolute path chunk (one leading slash stripped). -/
def pathChunkSegments (special : Bool) (l : List Char) : List (List Char) :=
  match l with
  | c :: rest => if isSlashLike c then splitSegments special rest else splitSegments special l
  | [] => [[]]

/-- Build the `path`/`query` components of a URL from the chunk following an
authority (which is empty or starts with a slash, `?` or `#`). -/
def parsePathQuery (special : Bool) (l : List Char) : String × Option String :=
  match l with
  | [] => ("/", none)
  | '?' :: _ => ("/", (takeQueryChars l).map (fun q => ⟨encodeQueryChars q⟩))
  | '#' :: _ => ("/", none)
  | _ =>
    let segs := normalizeSegmentsAux [] (pathChunkSegments special (takePathChars l))
    (joinPathSegments segs, (takeQueryChars l).map (fun q => ⟨encodeQueryChars q⟩))

/-- Parse `authority + path + query` for a special scheme, the state reached
after "special authority ignore slashes".  Fails on an empty hostname. -/
def parseSpecialRest (scheme : String) (l : List Char) : Option Url :=
  let afterSlashes := l.dropWhile isSlashLike
  let (auth, rest) := splitAuthority afterSlashes
  let hostPort := afterLastAt auth
  let (hostChars, portChunk) := splitHostPort hostPort
  if hostChars.isEmpty then none
  else
    match parsePort scheme portChunk with
    | none => none
    | some port =>
      let (path, query) := parsePathQuery true rest
      some { scheme := scheme
             host := asciiLower ⟨hostChars⟩
             port := port
             path := path
             query := query }

/-- `new URL(s)` — absolute parsing only (no base).  Non-special schemes are
modelled coarsely: an opaque path with an empty host, which is all the relay
subsystem ever observes of them. -/
def parseUrl (s : String) : Option Url :=
  match splitScheme s.data with
  | none => none
  | some (scheme, rest) =>
    if isSpecialScheme scheme then parseSpecialRest scheme rest
    else
      some { scheme := scheme
             host := ""
             port := none
             path := ⟨takePathChars rest⟩
             query := (takeQueryChars rest).map (fun q => ⟨encodeQueryChars q⟩) }

def lastSlashIndexSegments (special : Bool) (basePath : String) : List (List Char) :=
  (pathChunkSegments special basePath.data).dropLast

/-- `new URL(ref, base)` for a ref without a scheme, against a special base.
Covers the WHATWG relative, relative-slash and special-authority states. -/
def resolveNoScheme (ref : List Char) (base : Url) : Option Url :=
  match ref with
  | [] => some base
  | c1 :: rest1 =>
    if c1 == '?' then
      some { base with query := (takeQueryChars ref).map (fun q => ⟨encodeQueryChars q⟩) }
    else if c1 == '#' then some base
    else if isSlashLike c1 then
      match rest1 with
      | c2 :: _ =>
        if isSlashLike c2 then parseSpecialRest base.scheme ref
        else
          let (path, query) := parsePathQuery true ref
          some { base with path := path, query := query }
      | [] => some { base with path := "/", query := none }
    else
      let segs := lastSlashIndexSegments true base.path ++
        splitSegments true (takePathChars ref)
      let path := joinPathSegments (normalizeSegmentsAux [] segs)
      some { base with
             path := path
             query := (takeQueryChars ref).map (fun q => ⟨encodeQueryChars q⟩) }

/-- `new URL(ref, base)` — relative resolution against a parsed base. -/
def resolveRef (refS : String) (base : Url) : Option Url :=
  let ref := refS.data
  match splitScheme ref with
  | some (scheme, rest) =>
    if isSpecialScheme scheme then
      if scheme == base.scheme then
        match rest with
        | '/' :: '/' :: _ => parseSpecialRest scheme rest
        | _ => resolveNoScheme rest base
      else parseSpecialRest scheme rest
    else
      some { scheme := scheme
             host := ""
             port := none
             path := ⟨takePathChars rest⟩
             query := (takeQueryChars rest).map (fun q => ⟨encodeQueryChars q⟩) }
  | none => resolveNoScheme ref base

/-! ## URLSearchParams and URL serialization -/

def isHexDigitChar (c : Char) : Bool :=
  isAsciiDigit c || ('a' ≤ c && c ≤ 'f') || ('A' ≤ c && c ≤ 'F')

def hexDigitValue (c : Char) : Nat :=
  if isAsciiDigit c then c.toNat - '0'.toNat
  else if 'a' ≤ c && c ≤ 'f' then c.toNat - 'a'.toNat + 10
  else c.toNat - 'A'.toNat + 10

/-- Byte expansion of `application/x-www-form-urlencoded` text: `+` is a
space, `%XX` is a byte, anything else contributes its UTF-8 bytes. -/
def formDecodeBytes : List Char → List Nat
  | [] => []
  | '%' :: h1 :: h2 :: rest =>
    if isHexDigitChar h1 && isHexDigitChar h2 then
      (hexDigitValue h1 * 16 + hexDigitValue h2) :: formDecodeBytes rest
    else utf8EncodeChar '%' ++ formDecodeBytes (h1 :: h2 :: rest)
  | '+' :: rest => 0x20 :: formDecodeBytes rest
  | c :: rest => utf8EncodeChar c ++ formDecodeBytes rest

def formDecode (l : List Char) : String := ⟨utf8DecodeLossy (formDecodeBytes l)⟩

/-- `application/x-www-form-urlencoded` serialisation of one character:
`A–Z a–z 0–9 * - . _` stay, space becomes `+`, the rest percent-encode. -/
def formEncodeChar (c : Char) : List Char :=
  if ('A' ≤ c && c ≤ 'Z') || ('a' ≤ c && c ≤ 'z') || isAsciiDigit c ||
     c == '*' || c == '-' || c == '.' || c == '_' then [c]
  else if c == ' ' then ['+'] else percentEncodeCharUtf8 c

def formEncode (s : String) : List Char := s.data.flatMap formEncodeChar

/-- Parse a query string into its name-value list, as `URLSearchParams`
reads it: split on `&`, drop empty chunks, split each chunk at its first
`=`. -/
def parseFormPairs (q : String) : List (String × String) :=
  ((splitListOn '&' q.data).filter (fun seg => !seg.isEmpty)).map fun seg =>
    let k := seg.takeWhile (fun c => c != '=')
    match seg.dropWhile (fun c => c != '=') with
    | '=' :: v => (formDecode k, formDecode v)
    | _ => (formDecode seg, "")

def removeFormKey (k : String) (pairs : List (String × String)) : List (String × String) :=
  pairs.filter (fun p => p.1 != k)

def setFormParamAux (k v : String) : List (String × String) → List (String × String)
  | [] => []
  | p :: rest =>
    if p.1 == k then (k, v) :: removeFormKey k rest
    else p :: setFormParamAux k v rest

/-- `URLSearchParams.set`: overwrite the first pair with this name and drop
the others, or append when the name is absent. -/
def setFormParam (pairs : List (String × String)) (k v : String) : List (String × String) :=
  if pairs.any (fun p => p.1 == k) then setFormParamAux k v pairs
  else pairs ++ [(k, v)]

def serializeFormPairs (pairs : List (String × String)) : String :=
  ⟨(pairs.map (fun p => formEncode p.1 ++ '=' :: formEncode p.2)).intersperse ['&'] |>.flatten⟩

/-- The effect of `url.searchParams.set(k, v)` for every entry of `qs`, in
order.  With no entries the URL (and its verbatim query string) is
untouched; any mutation reserialises the whole query. -/
def applyQueryParams (u : Url) (qs : List (String × String)) : Url :=
  match qs with
  | [] => u
  | _ =>
    let pairs := qs.foldl (fun acc kv => setFormParam acc kv.1 kv.2)
      (parseFormPairs (u.query.getD ""))
    { u with query := some (serializeFormPairs pairs) }

/-- `url.toString()` for the URLs this model produces (fragments are not
modelled; the relay never builds one). -/
def serializeUrl (u : Url) : String :=
  let portStr : String := match u.port with | some p => ":" ++ toString p | none => ""
  let queryStr : String := match u.query with | some q => "?" ++ q | none => ""
  if u.host == "" && !isSpecialScheme u.scheme then u.scheme ++ ":" ++ u.path ++ queryStr
  else u.scheme ++ "://" ++ u.host ++ portStr ++ u.path ++ queryStr

/-! ## Relay requests and the target URL builder
(src/routes/index.tsx, relay route) -/

/-- A validated relay request (`relayRequestSchema`).  String-keyed record
fields become association lists with the objects' insertion order; a
JavaScript object cannot hold one key twice. -/
structure RelayRequest where
  baseUrl : String
  method : String
  path : String
  pathParams : List (String × String)
  queryParams : List (String × String)
  headers : List (String × String)
  contentType : Option String
  body : Option String
  deriving Repr, DecidableEq

def lookupAssoc (m : List (String × String)) (k : String) : Option String :=
  (m.find? (fun p => p.1 == k)).map (fun p => p.2)

/-! The template substitution `input.path.replace` with the pattern
"brace, one or more non-brace characters, brace", global: every
brace-delimited token with a non-empty name is replaced by the
`encodeURIComponent` of the matching path parameter, or of the empty string
when the parameter is absent.  `substBraceAux` is scanning a potential
token body; on an empty token or a missing closing brace the text stays
literal, exactly as the regular expression leaves it unmatched. -/
mutual

def substMainAux (pp : List (String × String)) : List Char → List Char
  | [] => []
  | c :: rest =>
    if c == '{' then substBraceAux pp [] rest
    else c :: substMainAux pp rest

def substBraceAux (pp : List (String × String)) (acc : List Char) : List Char → List Char
  | [] => '{' :: acc.reverse
  | c :: rest =>
    if c == '}' then
      if acc.isEmpty then '{' :: '}' :: substMainAux pp rest
      else
        ((lookupAssoc pp ⟨acc.reverse⟩).getD "").data.flatMap encodeURIComponentChar ++
          substMainAux pp rest
    else substBraceAux pp (c :: acc) rest

end

def substTemplate (pp : List (String × String)) (tpl : String) : String :=
  ⟨substMainAux pp tpl.data⟩

/-- `buildTargetUrl` from the relay route: parse the base URL, substitute
the path template, resolve it against the base, then set each query
parameter.  `none` models the `new URL` constructor throwing. -/
def buildTargetUrl (req : RelayRequest) : Option Url :=
  match parseUrl req.baseUrl with
  | none => none
  | some base =>
    match resolveRef (substTemplate req.pathParams req.path) base with
    | none => none
    | some url => some (applyQueryParams url req.queryParams)

/-! ## JSON values, `JSON.stringify` and `JSON.parse`

`Json.num` keeps the numeric lexeme as parsed; the canonical double
formatting of re-serialised numbers is not modelled (no claim touches a
numeric payload).  Lone UTF-16 surrogates cannot inhabit Lean strings, so an
escape sequence denoting a lone surrogate makes the model's parse fail where
JavaScript would produce an ill-formed string. -/

inductive Json where
  | null
  | bool (b : Bool)
  | num (lexeme : String)
  | str (s : String)
  | arr (items : List Json)
  | obj (fields : List (String × Json))

def hexLowerDigit (n : Nat) : Char :=
  Char.ofNat (if n < 10 then 48 + n else 87 + n)

/-- The string escaping of `JSON.stringify`: `"` and `\` get a backslash,
the named control escapes are used where they exist, other C0 controls
become `\u00XX`, and everything else is literal. -/
def escapeJsonChar (c : Char) : List Char :=
  if c == '"' then ['\\', '"']
  else if c == '\\' then ['\\', '\\']
  else if c.toNat == 8 then ['\\', 'b']
  else if c.toNat == 9 then ['\\', 't']
  else if c.toNat == 10 then ['\\', 'n']
  else if c.toNat == 12 then ['\\', 'f']
  else if c.toNat == 13 then ['\\', 'r']
  else if c.toNat < 0x20 then
    ['\\', 'u', '0', '0', hexLowerDigit (c.toNat / 16), hexLowerDigit (c.toNat % 16)]
  else [c]

def printJsonString (s : String) : List Char :=
  '"' :: s.data.flatMap escapeJsonChar ++ ['"']

mutual

/-- `JSON.stringify` without replacer or spacing, as character list. -/
def printJson : Json → List Char
  | .null => "null".data
  | .bool true => "true".data
  | .bool false => "false".data
  | .num lex => lex.data
  | .str s => printJsonString s
  | .arr items => '[' :: (printJsonItems items ++ [']'])
  | .obj fields => '{' :: (printJsonFields fields ++ ['}'])

def printJsonItems : List Json → List Char
  | [] => []
  | [x] => printJson x
  | x :: y :: xs => printJson x ++ ',' :: printJsonItems (y :: xs)

def printJsonFields : List (String × Json) → List Char
  | [] => []
  | [(k, v)] => printJsonString k ++ ':' :: printJson v
  | (k, v) :: f :: fs => printJsonString k ++ ':' :: printJson v ++ ',' :: printJsonFields (f :: fs)

end

def printJsonStr (j : Json) : String := ⟨printJson j⟩

def isJsonWs (c : Char) : Bool := c == ' ' || c == '\r' || c == '\n' || c == '\t'

def skipWs (l : List Char) : List Char := l.dropWhile isJsonWs

/-! Body of a JSON string literal, the opening quote already consumed.
Split into four mutually recursive pieces (plain characters, escape
dispatch, unicode escape, low-surrogate continuation) so that every match
is flat. -/
mutual

def parseStringBody (acc : List Char) : List Char → Option (String × List Char)
  | [] => none
  | c :: rest =>
    if c == '"' then some (⟨acc.reverse⟩, rest)
    else if c == '\\' then parseStringEscape acc rest
    else if c.toNat < 0x20 then none
    else parseStringBody (c :: acc) rest
termination_by l => l.length
decreasing_by all_goals simp_arith

def parseStringEscape (acc : List Char) : List Char → Option (String × List Char)
  | [] => none
  | e :: rest =>
    if e == '"' then parseStringBody ('"' :: acc) rest
    else if e == '\\' then parseStringBody ('\\' :: acc) rest
    else if e == '/' then parseStringBody ('/' :: acc) rest
    else if e == 'b' then parseStringBody (Char.ofNat 8 :: acc) rest
    else if e == 'f' then parseStringBody (Char.ofNat 12 :: acc) rest
    else if e == 'n' then parseStringBody (Char.ofNat 10 :: acc) rest
    else if e == 'r' then parseStringBody (Char.ofNat 13 :: acc) rest
    else if e == 't' then parseStringBody (Char.ofNat 9 :: acc) rest
    else if e == 'u' then parseStringUnicode acc rest
    else none
termination_by l => l.length
decreasing_by all_goals simp_arith

def parseStringUnicode (acc : List Char) : List Char → Option (String × List Char)
  | h1 :: h2 :: h3 :: h4 :: rest =>
    if isHexDigitChar h1 && isHexDigitChar h2 && isHexDigitChar h3 && isHexDigitChar h4 then
      let n := ((hexDigitValue h1 * 16 + hexDigitValue h2) * 16 + hexDigitValue h3) * 16 +
        hexDigitValue h4
      if 0xD800 ≤ n ∧ n ≤ 0xDBFF then parseStringLowSurrogate acc n rest
      else if 0xDC00 ≤ n ∧ n ≤ 0xDFFF then none
      else parseStringBody (Char.ofNat n :: acc) rest
    else none
  | _ => none
termination_by l => l.length
decreasing_by all_goals simp_arith

def parseStringLowSurrogate (acc : List Char) (hi : Nat) :
    List Char → Option (String × List Char)
  | '\\' :: 'u' :: h1 :: h2 :: h3 :: h4 :: rest =>
    if isHexDigitChar h1 && isHexDigitChar h2 && isHexDigitChar h3 && isHexDigitChar h4 then
      let m := ((hexDigitValue h1 * 16 + hexDigitValue h2) * 16 + hexDigitValue h3) * 16 +
        hexDigitValue h4
      if 0xDC00 ≤ m ∧ m ≤ 0xDFFF then
        parseStringBody (Char.ofNat (0x10000 + (hi - 0xD800) * 1024 + (m - 0xDC00)) :: acc) rest
      else none
    else none
  | _ => none
termination_by l => l.length
decreasing_by all_goals simp_arith

end

def takeDigits (l : List Char) : List Char × List Char :=
  (l.takeWhile isAsciiDigit, l.dropWhile isAsciiDigit)

/-- A JSON number lexeme: optional minus, integer part with no leading
zero, optional fraction, optional exponent. -/
def parseJsonNumber (l : List Char) : Option (String × List Char) :=
  let (sign, l1) := match l with
    | '-' :: r => (['-'], r)
    | _ => (([] : List Char), l)
  let intRes : Option (List Char × List Char) := match l1 with
    | '0' :: r => some (['0'], r)
    | _ =>
      let (ds, r) := takeDigits l1
      if ds.isEmpty then none else some (ds, r)
  match intRes with
  | none => none
  | some (intPart, l2) =>
    let (fracPart, l3) : List Char × List Char := match l2 with
      | '.' :: r =>
        let (ds, r2) := takeDigits r
        if ds.isEmpty then (['#'], l2) else ('.' :: ds, r2)
      | _ => ([], l2)
    if fracPart == ['#'] then none
    else
      let (expPart, l4) : List Char × List Char := match l3 with
        | 'e' :: r => parseExpTail 'e' r l3
        | 'E' :: r => parseExpTail 'E' r l3
        | _ => ([], l3)
      if expPart == ['#'] then none
      else some (⟨sign ++ intPart ++ fracPart ++ expPart⟩, l4)
where
  parseExpTail (e : Char) (r orig : List Char) : List Char × List Char :=
    let (esign, r1) : List Char × List Char := match r with
      | '+' :: rr => (['+'], rr)
      | '-' :: rr => (['-'], rr)
      | _ => ([], r)
    let (ds, r2) := takeDigits r1
    if ds.isEmpty then (['#'], orig) else (e :: esign ++ ds, r2)

/-- JavaScript duplicate-key semantics for object literals: the key keeps
its first position, the value of a repeated key is the later one. -/
def insertJsonField (acc : List (String × Json)) (kv : String × Json) : List (String × Json) :=
  if acc.any (fun p => p.1 == kv.1) then
    acc.map (fun p => if p.1 == kv.1 then (p.1, kv.2) else p)
  else acc ++ [kv]

def dedupJsonFields (fs : List (String × Json)) : List (String × Json) :=
  fs.foldl insertJsonField []

mutual

/-- Fueled recursive-descent parser for `JSON.parse`.  Every recursive call
spends one fuel unit and consumes at least one character, so fuel one more
than the input length always suffices. -/
def parseJsonValue : Nat → List Char → Option (Json × List Char)
  | 0, _ => none
  | Nat.succ fuel, l =>
    match skipWs l with
    | 'n' :: 'u' :: 'l' :: 'l' :: rest => some (.null, rest)
    | 't' :: 'r' :: 'u' :: 'e' :: rest => some (.bool true, rest)
    | 'f' :: 'a' :: 'l' :: 's' :: 'e' :: rest => some (.bool false, rest)
    | '"' :: rest => (parseStringBody [] rest).map (fun p => (.str p.1, p.2))
    | '[' :: rest =>
      (match skipWs rest with
       | ']' :: r2 => some (.arr [], r2)
       | r2 => (parseJsonItemsAux fuel r2).map (fun p => (.arr p.1, p.2)))
    | '{' :: rest =>
      (match skipWs rest with
       | '}' :: r2 => some (.obj [], r2)
       | r2 => (parseJsonFieldsAux fuel r2).map (fun p => (.obj (dedupJsonFields p.1), p.2)))
    | l2 => (parseJsonNumber l2).map (fun p => (.num p.1, p.2))

def parseJsonItemsAux : Nat → List Char → Option (List Json × List Char)
  | 0, _ => none
  | Nat.succ fuel, l =>
    match parseJsonValue fuel l with
    | none => none
    | some (v, r) =>
      match skipWs r with
      | ',' :: r2 => (parseJsonItemsAux fuel r2).map (fun p => (v :: p.1, p.2))
      | ']' :: r2 => some ([v], r2)
      | _ => none

def parseJsonFieldsAux : Nat → List Char → Option (List (String × Json) × List Char)
  | 0, _ => none
  | Nat.succ fuel, l =>
    match skipWs l with
    | '"' :: r =>
      (match parseStringBody [] r with
       | none => none
       | some (k, r1) =>
         match skipWs r1 with
         | ':' :: r2 =>
           (match parseJsonValue fuel r2 with
            | none => none
            | some (v, r3) =>
              match skipWs r3 with
              | ',' :: r4 => (parseJsonFieldsAux fuel r4).map (fun p => ((k, v) :: p.1, p.2))
              | '}' :: r4 => some ([(k, v)], r4)
              | _ => none)
         | _ => none)
    | _ => none

end

/-- `JSON.parse`: one value, with only whitespace around it. -/
def jsonParse (s : String) : Option Json :=
  match parseJsonValue (s.length + 1) s.data with
  | some (v, rest) => if (skipWs rest).isEmpty then some v else none
  | none => none

/-! ## Header filtering and the relay handler
(src/routes/index.tsx, relay route POST handler) -/

def isJsTrimWs (c : Char) : Bool :=
  c == ' ' || c == '\t' || c == '\n' || c == '\r' ||
  c.toNat == 0x0B || c.toNat == 0x0C

/-- `String.prototype.trim` restricted to its ASCII whitespace. -/
def strTrim (s : String) : String :=
  ⟨((s.data.dropWhile isJsTrimWs).reverse.dropWhile isJsTrimWs).reverse⟩

/-- `isHopByHopHeader` from the relay route. -/
def isHopByHopHeader (headerName : String) : Bool :=
  let h := asciiLower (strTrim headerName)
  h == "connection" || h == "keep-alive" || h == "proxy-authenticate" ||
  h == "proxy-authorization" || h == "te" || h == "trailer" ||
  h == "transfer-encoding" || h == "upgrade" || h == "host" || h == "content-length"

/-- `Headers.set`: the name is normalised to lower case, the value's
leading and trailing HTTP whitespace is stripped; an existing entry with
this name is overwritten in place, otherwise the pair is appended.  (The
sorted iteration order of the `Headers` iterator is not modelled; the relay
only writes and forwards the collection.) -/
def headersSet (hs : List (String × String)) (name value : String) : List (String × String) :=
  let n := asciiLower name
  let v := strTrim value
  if hs.any (fun p => p.1 == n) then hs.map (fun p => if p.1 == n then (n, v) else p)
  else hs ++ [(n, v)]

def headersHas (hs : List (String × String)) (name : String) : Bool :=
  hs.any (fun p => p.1 == asciiLower name)

/-- The `upstreamHeaders` of the relay handler: copy every caller header
whose name is non-empty and not hop-by-hop, then inject `contentType` when
it is a non-empty string and no `content-type` header is present. -/
def buildUpstreamHeaders (headers : List (String × String)) (contentType : Option String) :
    List (String × String) :=
  let base := headers.foldl
    (fun acc kv =>
      if kv.1 == "" then acc
      else if isHopByHopHeader kv.1 then acc
      else headersSet acc kv.1 kv.2) []
  match contentType with
  | some ct =>
    if ct != "" && !headersHas base "content-type" then headersSet base "content-type" ct
    else base
  | none => base

/-- `coerceBody` from the relay route: a content type containing
`application/json` (after lower-casing) makes the body text parse and
re-serialise as JSON — `none` models the `JSON.parse` exception escaping —
while any other content type forwards the text as-is. -/
def coerceBody (req : RelayRequest) : Option String :=
  let ct := asciiLower (req.contentType.getD "")
  let body := req.body.getD ""
  if strIncludes ct "application/json" then
    if body == "" then some "null"
    else
      match jsonParse body with
      | some v => some (printJsonStr v)
      | none => none
  else some body

/-- The observable outcome of one relay handler invocation, up to the
outbound `fetch`: an error response is returned before any outbound call,
`uncaughtException` is the `JSON.parse` error escaping `coerceBody`, and
`upstreamCall` records exactly the request handed to `fetch`.  (The
response-side streaming and header stripping lie beyond the claims and are
not modelled.) -/
inductive RelayOutcome where
  | errorResponse (status : Nat) (error : String)
  | uncaughtException
  | upstreamCall (target : Url) (method : String) (headers : List (String × String))
      (body : Option String)
  deriving Repr, DecidableEq

/-- The POST handler of `/api/relay`, from the validated request on:
build the target URL (a 400 on a `new URL` failure), veto by
`isSafeTarget` (a 400), filter headers, normalise the method, attach the
coerced body for non-GET/HEAD methods with non-empty body text. -/
def relayHandler (req : RelayRequest) : RelayOutcome :=
  match buildTargetUrl req with
  | none => .errorResponse 400 "Invalid URL"
  | some targetUrl =>
    if !isSafeTarget targetUrl then .errorResponse 400 "Blocked target host"
    else
      let upstreamHeaders := buildUpstreamHeaders req.headers req.contentType
      let method := asciiUpper req.method
      let hasBody := !(method == "GET" || method == "HEAD")
      if hasBody && !(req.body.getD "" == "") then
        match coerceBody req with
        | none => .uncaughtException
        | some b => .upstreamCall targetUrl method upstreamHeaders (some b)
      else .upstreamCall targetUrl method upstreamHeaders none

/-! ## JavaScript dynamic-value helpers for the reducer
(src/lib/openapiShape.ts walks untrusted parsed documents) -/

/-- Property access `x?.k` on a parsed JSON value: a named property exists
only on objects.  (A numeric-string index into an array is not modelled;
the reducer only reads alphabetic keys.) -/
def Json.getField : Json → String → Option Json
  | .obj fields, k => (fields.find? (fun p => p.1 == k)).map (fun p => p.2)
  | _, _ => none

/-- Does the mantissa of a JSON number lexeme consist of zeros only?  Such
a number is JavaScript `0` (falsy).  Extreme exponent underflow is not
modelled. -/
def numLexIsZero (lex : String) : Bool :=
  (lex.data.takeWhile (fun c => c != 'e' && c != 'E')).all (fun c => !isAsciiDigit c || c == '0')

/-- JavaScript truthiness of a parsed JSON value. -/
def Json.truthy : Json → Bool
  | .null => false
  | .bool b => b
  | .num lex => !numLexIsZero lex
  | .str s => s != ""
  | .arr _ => true
  | .obj _ => true

/-- `typeof x === 'object'`: objects, arrays and `null`. -/
def Json.isObjectType : Json → Bool
  | .obj _ => true
  | .arr _ => true
  | .null => true
  | _ => false

def Json.isArr : Json → Bool
  | .arr _ => true
  | _ => false

def Json.asString : Json → Option String
  | .str s => some s
  | _ => none

/-- Strict equality `x === s` between a dynamic value and a string literal. -/
def Json.isStr (j : Json) (s : String) : Bool :=
  match j with
  | .str t => t == s
  | _ => false

def optIsStr (j : Option Json) (s : String) : Bool :=
  match j with
  | some v => v.isStr s
  | none => false

/-- `Object.entries`, for the values the reducer feeds it (objects and
arrays; arrays enumerate index keys in order). -/
def jsEntries : Json → List (String × Json)
  | .obj fields => fields
  | .arr items => items.enum.map (fun p => (toString p.1, p.2))
  | _ => []

def jsKeys (j : Json) : List String := (jsEntries j).map (fun p => p.1)

def jsValues (j : Json) : List Json := (jsEntries j).map (fun p => p.2)

/-- The items of `x` when `Array.isArray(x)`, else nothing. -/
def jsArrayItems : Option Json → List Json
  | some (.arr items) => items
  | _ => []

/-! ## OpenAPI shape types (src/lib/openapiShape.ts) -/

structure ParamSchemaShape where
  type : Option String
  format : Option String
  enumVals : Option (List String)
  defaultVal : Option Json

/-- `ParameterShape`; the source field `in` is a Lean keyword and is called
`location` here, and the schema's `enum` / `default` members are
`enumVals` / `defaultVal`. -/
structure ParameterShape where
  name : String
  location : String
  required : Bool
  schema : ParamSchemaShape

structure BodyFieldShape where
  name : String
  required : Bool
  type : Option String

structure RequestBodyShape where
  contentTypes : List String
  fields : Option (List BodyFieldShape)
  rawSchema : Option Json

/-- `authHint`: the bearer variant's `header: 'Authorization'` and
`prefix: 'Bearer '` members are the literal constants of the source and are
left implicit in the model. -/
inductive AuthHint where
  | bearer
  | apiKey (name : String)
  deriving Repr, DecidableEq

structure OperationShape where
  key : String
  method : String
  path : String
  summary : Option String
  description : Option String
  parameters : List ParameterShape
  requestBody : Option RequestBodyShape
  authHint : Option AuthHint

structure SpecShape where
  title : Option String
  version : Option String
  servers : List String
  operations : List OperationShape

/-! ## The shape reducer (src/lib/openapiShape.ts lines 100-299) -/

/-- One entry of a `parameters` array, reduced as in `collectParameters`'s
`map` body: `null` unless it is a truthy object whose `in` is one of
`path`/`query`/`header` and whose `name` is a non-empty string; a path
parameter is forced required. -/
def reduceOneParameter (p : Json) : Option ParameterShape :=
  if !(p.truthy && p.isObjectType) then none
  else
    let loc := p.getField "in"
    if !(optIsStr loc "path" || optIsStr loc "query" || optIsStr loc "header") then none
    else
      let name := ((p.getField "name").bind Json.asString).getD ""
      if name == "" then none
      else
        let schema := match p.getField "schema" with
          | some s => if s.truthy && s.isObjectType then s else Json.obj []
          | none => Json.obj []
        let enumVals : Option (List String) :=
          match schema.getField "enum" with
          | some (.arr xs) =>
            if xs.all (fun x => x.asString.isSome) then some (xs.filterMap Json.asString)
            else none
          | _ => none
        some
          { name := name
            location := (loc.bind Json.asString).getD ""
            required := ((p.getField "required").map Json.truthy).getD false ||
              optIsStr loc "path"
            schema :=
              { type := (schema.getField "type").bind Json.asString
                format := (schema.getField "format").bind Json.asString
                enumVals := enumVals
                defaultVal := schema.getField "default" } }

/-- `collectParameters`: path-item-level parameters first, then
operation-level ones, each reduced by `reduceOneParameter` with invalid
entries dropped (`filter(Boolean)`). -/
def collectParameters (pathItem op : Json) : List ParameterShape :=
  (jsArrayItems (pathItem.getField "parameters") ++
    jsArrayItems (op.getField "parameters")).filterMap reduceOneParameter

/-- `reduceObjectSchemaFields`: only a truthy object schema with
`type: 'object'` and a truthy-object `properties` map yields fields;
requiredness comes from membership of the name in a `required` array; an
empty or over-50-entry field list is discarded. -/
def reduceObjectSchemaFields (schema : Option Json) : Option (List BodyFieldShape) :=
  match schema with
  | none => none
  | some s =>
    if !(s.truthy && s.isObjectType) then none
    else if !(optIsStr (s.getField "type") "object") then none
    else
      match s.getField "properties" with
      | some props =>
        if !(props.truthy && props.isObjectType) then none
        else
          let requiredList := jsArrayItems (s.getField "required")
          let fields := (jsEntries props).map fun kv =>
            let ps := match kv.2 with
              | pj => if pj.truthy && pj.isObjectType then pj else Json.obj []
            { name := kv.1
              required := requiredList.any (fun x => x.isStr kv.1)
              type := (ps.getField "type").bind Json.asString : BodyFieldShape }
          if fields.length == 0 then none
          else if fields.length > 50 then none
          else some fields
      | none => none

/-- `reduceRequestBody`: present only when the `content` map declares at
least one media type; `application/json` (or the first type whose
lower-cased name contains `json`) supplies the schema; the schema either
decomposes into fields or passes through raw. -/
def reduceRequestBody (requestBody : Option Json) : Option RequestBodyShape :=
  match requestBody with
  | none => none
  | some rb =>
    if !(rb.truthy && rb.isObjectType) then none
    else
      let content := match rb.getField "content" with
        | some c => if c.truthy && c.isObjectType then c else Json.obj []
        | none => Json.obj []
      let contentTypes := jsKeys content
      if contentTypes.isEmpty then none
      else
        let jsonType : Option String :=
          match content.getField "application/json" with
          | some j => if j.isObjectType then some "application/json" else
              contentTypes.find? (fun t => strIncludes (asciiLower t) "json")
          | none => contentTypes.find? (fun t => strIncludes (asciiLower t) "json")
        let jsonContent := jsonType.bind (fun t => content.getField t)
        let schema := jsonContent.bind (fun jc => jc.getField "schema")
        match reduceObjectSchemaFields schema with
        | some fields =>
          some { contentTypes := contentTypes, fields := some fields, rawSchema := none }
        | none =>
          match schema with
          | some sc => some { contentTypes := contentTypes, fields := none, rawSchema := some sc }
          | none => some { contentTypes := contentTypes, fields := none, rawSchema := none }

/-- `inferAuthHintFromScheme`. -/
def inferAuthHintFromScheme (scheme : Option Json) : Option AuthHint :=
  match scheme with
  | none => none
  | some s =>
    if !(s.truthy && s.isObjectType) then none
    else if optIsStr (s.getField "type") "http" && optIsStr (s.getField "scheme") "bearer" then
      some AuthHint.bearer
    else if optIsStr (s.getField "type") "apiKey" && optIsStr (s.getField "in") "header" then
      match (s.getField "name").bind Json.asString with
      | some n => some (AuthHint.apiKey n)
      | none => none
    else none

def securitySchemesOf (spec : Json) : Option Json :=
  match (spec.getField "components").bind (fun c => c.getField "securitySchemes") with
  | some schemes => if schemes.truthy && schemes.isObjectType then some schemes else none
  | none => none

/-- `inferGlobalAuthHint`: the first recognised scheme among the document's
security-scheme definitions. -/
def inferGlobalAuthHint (spec : Json) : Option AuthHint :=
  match securitySchemesOf spec with
  | none => none
  | some schemes => (jsValues schemes).findSome? (fun s => inferAuthHintFromScheme (some s))

/-- `inferOpAuthHint`: the first recognised scheme named by the operation's
own `security` list. -/
def inferOpAuthHint (spec : Json) (op : Json) : Option AuthHint :=
  match securitySchemesOf spec with
  | none => none
  | some schemes =>
    match op.getField "security" with
    | some (.arr security) =>
      security.findSome? fun entry =>
        if !(entry.truthy && entry.isObjectType) then none
        else (jsKeys entry).findSome? fun schemeName =>
          inferAuthHintFromScheme (schemes.getField schemeName)
    | _ => none

/-! ## The `localeCompare` collation model and the sort

`operations.sort((a, b) => a.key.localeCompare(b.key))` uses the
locale-aware collation of `String.prototype.localeCompare`, not ordinal
code-unit comparison.  The model implements the root-collation behaviour on
ASCII: a primary pass compares base characters (letters case-folded,
ordered a–z after digits after punctuation), and a tertiary pass breaks
primary ties with lower case before upper case.  This matches
`localeCompare` on ASCII letters and digits; the relative order within
punctuation is approximated by code point. -/

def primaryWeight (c : Char) : Nat :=
  if isAsciiDigit c then 1000 + c.toNat
  else if 'a' ≤ c && c ≤ 'z' then 2000 + (c.toNat - 'a'.toNat)
  else if 'A' ≤ c && c ≤ 'Z' then 2000 + (c.toNat - 'A'.toNat)
  else if c.toNat < 0x80 then 1 + c.toNat
  else 3000 + c.toNat

def tertiaryWeight (c : Char) : Nat :=
  if 'A' ≤ c && c ≤ 'Z' then 2 else 1

/-- The collation key: all primary weights, a level separator, then all
tertiary weights (all weights are positive, the separator is `0`). -/
def collationKey (s : String) : List Nat :=
  s.data.map primaryWeight ++ 0 :: s.data.map tertiaryWeight

/-- Lexicographic comparison of weight lists. -/
def listLexLe : List Nat → List Nat → Bool
  | [], _ => true
  | _ :: _, [] => false
  | a :: as, b :: bs =>
    if a < b then true else if b < a then false else listLexLe as bs

/-- `a.localeCompare(b) <= 0` in the collation model. -/
def localeLe (a b : String) : Bool := listLexLe (collationKey a) (collationKey b)

/-- Ordinal (code-unit lexicographic) strict comparison, the order claim C7
asserts.  On the ASCII strings at issue code units and code points agree. -/
def ordinalLt : List Char → List Char → Bool
  | [], [] => false
  | [], _ :: _ => true
  | _ :: _, [] => false
  | a :: as, b :: bs =>
    if a.toNat < b.toNat then true
    else if b.toNat < a.toNat then false
    else ordinalLt as bs

def ordinalLe (a b : String) : Bool := a == b || ordinalLt a.data b.data

/-- The comparator of the `operations.sort` call. -/
def opLe (a b : OperationShape) : Prop := localeLe a.key b.key = true

instance : DecidableRel opLe := fun a b => by unfold opLe; infer_instance

/-! ## `reduceOpenApiSpec` -/

def httpMethodNames : List String :=
  ["get", "post", "put", "patch", "delete", "options", "head"]

/-- The operations collected from one `paths` entry, in source order of the
seven recognised method keys. -/
def operationsOfPathItem (spec : Json) (globalHint : Option AuthHint)
    (path : String) (pathItem : Json) : List OperationShape :=
  if !(pathItem.truthy && pathItem.isObjectType) then []
  else
    httpMethodNames.filterMap fun method =>
      match pathItem.getField method with
      | none => none
      | some op =>
        if !op.truthy then none
        else
          let methodUpper := asciiUpper method
          some
            { key := methodUpper ++ " " ++ path
              method := methodUpper
              path := path
              summary := (op.getField "summary").bind Json.asString
              description := (op.getField "description").bind Json.asString
              parameters := collectParameters pathItem op
              requestBody := reduceRequestBody (op.getField "requestBody")
              authHint :=
                match inferOpAuthHint spec op with
                | some h => some h
                | none => globalHint }

/-- `reduceOpenApiSpec` (src/lib/openapiShape.ts lines 100-157).  The
`operations.sort` call is modelled by a stable insertion sort under the
`localeCompare` comparator, which is the unique sorted stable permutation
the JavaScript sort produces under a consistent comparator. -/
def reduceOpenApiSpec (spec : Json) : SpecShape :=
  let servers : List String :=
    match spec.getField "servers" with
    | some (.arr items) =>
      items.filterMap fun s =>
        match (s.getField "url").bind Json.asString with
        | some u => if u != "" then some u else none
        | none => none
    | _ => []
  let authHint := inferGlobalAuthHint spec
  let paths : Json :=
    match spec.getField "paths" with
    | some p => if p.truthy && p.isObjectType then p else Json.obj []
    | none => Json.obj []
  let operations :=
    (jsEntries paths).flatMap fun kv => operationsOfPathItem spec authHint kv.1 kv.2
  { title := ((spec.getField "info").bind (fun i => i.getField "title")).bind Json.asString
    version := ((spec.getField "info").bind (fun i => i.getField "version")).bind Json.asString
    servers := servers
    operations := List.insertionSort opLe operations }

/-! ## The process-local spec-shape cache
(src/lib/openapiShape.ts lines 301-341)

`memoryCache` is a `Map` from normalised spec URL to `{value, expiresAt}`;
time is `Date.now()` in milliseconds.  The shared edge tier, consulted only
after a local miss, is outside the claims and is not modelled. -/

structure CacheEntry where
  value : SpecShape
  expiresAt : Nat

/-- The local-tier consult of `readCache`: an entry is served only when
`mem.expiresAt > now` holds strictly; otherwise the local tier reports a
miss. -/
def readCacheLocal (cache : List (String × CacheEntry)) (url : String) (now : Nat) :
    Option SpecShape :=
  match (cache.find? (fun p => p.1 == url)).map (fun p => p.2) with
  | some e => if e.expiresAt > now then some e.value else none
  | none => none

/-- The local-tier update of `writeCache`:
`memoryCache.set(key.url, {value, expiresAt: now + ttlSeconds * 1000})`. -/
def writeCacheLocal (cache : List (String × CacheEntry)) (url : String) (value : SpecShape)
    (now ttlSeconds : Nat) : List (String × CacheEntry) :=
  let entry : CacheEntry := { value := value, expiresAt := now + ttlSeconds * 1000 }
  if cache.any (fun p => p.1 == url) then
    cache.map (fun p => if p.1 == url then (url, entry) else p)
  else cache ++ [(url, entry)]

/-! ## Base64url (src/lib/base64url.ts) -/

def base64Alphabet : List Char :=
  "ABCDEFGHIJKLMNOPQRSTUVWXYZabcdefghijklmnopqrstuvwxyz0123456789+/".data

def sextetChar (n : Nat) : Char := base64Alphabet.getD n '?'

def sextetOf (c : Char) : Option Nat := base64Alphabet.findIdx? (fun x => x == c)

/-- `btoa` on a byte sequence (the code always feeds it bytes), grouped in
threes with `=` padding. -/
def btoa : List Nat → List Char
  | [] => []
  | [b1] => [sextetChar (b1 / 4), sextetChar (b1 % 4 * 16), '=', '=']
  | [b1, b2] =>
    [sextetChar (b1 / 4), sextetChar (b1 % 4 * 16 + b2 / 16), sextetChar (b2 % 16 * 4), '=']
  | b1 :: b2 :: b3 :: rest =>
    sextetChar (b1 / 4) :: sextetChar (b1 % 4 * 16 + b2 / 16) ::
      sextetChar (b2 % 16 * 4 + b3 / 64) :: sextetChar (b3 % 64) :: btoa rest

/-- `atob` on four-character groups (the caller repads, so valid inputs are
always a multiple of four); `none` models the `InvalidCharacterError`. -/
def atobGroups : List Char → Option (List Nat)
  | [] => some []
  | c1 :: c2 :: c3 :: c4 :: rest =>
    (match sextetOf c1, sextetOf c2 with
     | some s1, some s2 =>
       if c3 == '=' && c4 == '=' && rest.isEmpty then some [s1 * 4 + s2 / 16]
       else
         match sextetOf c3 with
         | some s3 =>
           if c4 == '=' && rest.isEmpty then
             some [s1 * 4 + s2 / 16, s2 % 16 * 16 + s3 / 4]
           else
             match sextetOf c4 with
             | some s4 =>
               (atobGroups rest).map
                 (fun bs =>
                   (s1 * 4 + s2 / 16) :: (s2 % 16 * 16 + s3 / 4) :: (s3 % 4 * 64 + s4) :: bs)
             | none => none
         | none => none
     | _, _ => none)
  | _ => none

def b64SwapChar (c : Char) : Char :=
  if c == '+' then '-' else if c == '/' then '_' else c

def b64UnswapChar (c : Char) : Char :=
  if c == '-' then '+' else if c == '_' then '/' else c

/-- `encodeBase64Url`: `btoa` of the bytes (the chunked
`String.fromCharCode` loop only concatenates), then `+`→`-`, `/`→`_`, and
trailing `=` stripped. -/
def encodeBase64Url (bytes : List Nat) : List Char :=
  ((btoa bytes).map b64SwapChar).reverse.dropWhile (fun c => c == '=') |>.reverse

/-- `decodeBase64Url`: undo the URL-safe substitutions, repad with
`'==='.slice((length + 3) % 4)`, and `atob`. -/
def decodeBase64Url (input : String) : Option (List Nat) :=
  let b64 := input.data.map b64UnswapChar
  let pad := List.replicate (3 - (b64.length + 3) % 4) '='
  atobGroups (b64 ++ pad)

/-- The unpadded base64 chars of a byte sequence (`btoa` minus its `=`
padding). -/
def b64core : List Nat → List Char
  | [] => []
  | [b1] => [sextetChar (b1 / 4), sextetChar (b1 % 4 * 16)]
  | [b1, b2] =>
    [sextetChar (b1 / 4), sextetChar (b1 % 4 * 16 + b2 / 16), sextetChar (b2 % 16 * 4)]
  | b1 :: b2 :: b3 :: rest =>
    sextetChar (b1 / 4) :: sextetChar (b1 % 4 * 16 + b2 / 16) ::
      sextetChar (b2 % 16 * 4 + b3 / 64) :: sextetChar (b3 % 64) :: b64core rest

/-- The number of `=` padding characters `btoa` appends. -/
def padLen (n : Nat) : Nat :=
  match n % 3 with
  | 0 => 0
  | 1 => 2
  | _ => 1

/-! ## The URL state codec (src/lib/urlState.ts)

`pako`'s `deflate` / `inflate(…, {to: 'string'})` pair is an external
lossless byte codec around the UTF-8 text.  The model keeps the losslessness
and composes the UTF-8 step with an identity compression; real DEFLATE
output length differs per input (high-entropy text does not shrink), which
is where the 20,000-byte cap binds. -/

def deflateM (s : String) : List Nat := utf8Encode s

def inflateToString (bytes : List Nat) : String := ⟨utf8DecodeLossy bytes⟩

/-- `AppState` (`z.infer<typeof appStateSchema>`). -/
structure AppState where
  baseUrl : String
  specUrl : Option String
  operationKey : Option String
  manualMethod : String
  manualPath : String
  pathParams : List (String × String)
  queryParams : List (String × String)
  headerParams : List (String × String)
  contentType : String
  bodyJson : String
  deriving Repr, DecidableEq

def defaultAppState : AppState :=
  { baseUrl := ""
    specUrl := none
    operationKey := none
    manualMethod := "GET"
    manualPath := "/"
    pathParams := []
    queryParams := []
    headerParams := []
    contentType := "application/json"
    bodyJson := "" }

/-- `JSON.stringify(state)` seen as a JSON value: the declared key order,
with `undefined`-valued optional members omitted. -/
def jsonOfAppState (s : AppState) : Json :=
  Json.obj
    ([("baseUrl", Json.str s.baseUrl)] ++
     (match s.specUrl with | some u => [("specUrl", Json.str u)] | none => []) ++
     (match s.operationKey with | some k => [("operationKey", Json.str k)] | none => []) ++
     [("manualMethod", Json.str s.manualMethod),
      ("manualPath", Json.str s.manualPath),
      ("pathParams", Json.obj (s.pathParams.map (fun p => (p.1, Json.str p.2)))),
      ("queryParams", Json.obj (s.queryParams.map (fun p => (p.1, Json.str p.2)))),
      ("headerParams", Json.obj (s.headerParams.map (fun p => (p.1, Json.str p.2)))),
      ("contentType", Json.str s.contentType),
      ("bodyJson", Json.str s.bodyJson)])

/-- The URL validity test of `z.string().url()` (a `new URL` try/catch). -/
def zodUrlValid (s : String) : Bool := (parseUrl s).isSome

def appStateKnownKeys : List String :=
  ["baseUrl", "specUrl", "operationKey", "manualMethod", "manualPath",
   "pathParams", "queryParams", "headerParams", "contentType", "bodyJson"]

/-- `z.record(z.string(), z.string())` with `.default({}).catch({})`: a
missing member or any failure yields the empty record. -/
def zodRecordOf (j : Option Json) : List (String × String) :=
  match j with
  | some (.obj fs) =>
    if fs.all (fun kv => kv.2.asString.isSome) then
      fs.map (fun kv => (kv.1, kv.2.asString.getD ""))
    else []
  | _ => []

/-- `appStateSchema.safeParse` on a parsed JSON value, with the
`.catch`/`.default` fallbacks of each member and the `.strict()` unknown-key
rejection.  `none` is a failed parse (the decoder then falls back to the
default state). -/
def appStateSchemaParse (j : Json) : Option AppState :=
  match j with
  | .obj fields =>
    if !(fields.all (fun kv => appStateKnownKeys.contains kv.1)) then none
    else
      some
        { baseUrl :=
            match Json.getField (Json.obj fields) "baseUrl" with
            | some (.str u) => if zodUrlValid u then u else ""
            | _ => ""
          specUrl :=
            match Json.getField (Json.obj fields) "specUrl" with
            | some (.str u) => if zodUrlValid u then some u else none
            | _ => none
          operationKey :=
            match Json.getField (Json.obj fields) "operationKey" with
            | some (.str s) => some s
            | _ => none
          manualMethod :=
            match Json.getField (Json.obj fields) "manualMethod" with
            | some (.str s) => s
            | _ => "GET"
          manualPath :=
            match Json.getField (Json.obj fields) "manualPath" with
            | some (.str s) => s
            | _ => "/"
          pathParams := zodRecordOf (Json.getField (Json.obj fields) "pathParams")
          queryParams := zodRecordOf (Json.getField (Json.obj fields) "queryParams")
          headerParams := zodRecordOf (Json.getField (Json.obj fields) "headerParams")
          contentType :=
            match Json.getField (Json.obj fields) "contentType" with
            | some (.str s) => s
            | _ => "application/json"
          bodyJson :=
            match Json.getField (Json.obj fields) "bodyJson" with
            | some (.str s) => s
            | _ => "" }
  | _ => none

def maxStateBytes : Nat := 20000

/-- `encodeStateToSearchParam`. -/
def encodeStateToSearchParam (state : AppState) : String :=
  ⟨encodeBase64Url (deflateM (printJsonStr (jsonOfAppState state)))⟩

/-- `decodeStateFromSearchParam`: a missing or empty token, a `atob`
failure, an oversized payload, a JSON parse failure or a schema failure all
fall back to `defaultAppState`; otherwise the parsed state is spread over
the defaults (which the model's total record already is). -/
def decodeStateFromSearchParam (input : Option String) : AppState :=
  match input with
  | none => defaultAppState
  | some s =>
    if s == "" then defaultAppState
    else
      match decodeBase64Url s with
      | none => defaultAppState
      | some bytes =>
        if bytes.length > maxStateBytes then defaultAppState
        else
          match jsonParse (inflateToString bytes) with
          | none => defaultAppState
          | some parsed =>
            match appStateSchemaParse parsed with
            | some st => st
            | none => defaultAppState

/-- A path reference beginning with a single slash: resolved against a base
URL it can only replace the path and query, never the authority (a second
slash or backslash would enter the authority state, a scheme cannot start
with a slash). -/
def startsWithSingleSlash (s : String) : Bool :=
  match s.data with
  | [] => false
  | c :: rest => c == '/' && ((rest.head?.map (fun c2 => !isSlashLike c2)).getD true)

/-- The relay request of claim C6's worked example. -/
def c6Req : RelayRequest :=
  { baseUrl := "https://api.example.com"
    method := "GET"
    path := "/users/{id}"
    pathParams := [("id", "7 8")]
    queryParams := [("active", "true")]
    headers := []
    contentType := none
    body := none }

/-- A valid relay request whose base URL is public and well-formed but
whose path template is itself an absolute URL. -/
def cEvilReq : RelayRequest :=
  { baseUrl := "https://api.example.com"
    method := "GET"
    path := "https://evil.example.org/"
    pathParams := []
    queryParams := []
    headers := []
    contentType := none
    body := none }

/-- A relay request whose built target the Host Safety Guard vetoes. -/
def cBlockedReq : RelayRequest :=
  { baseUrl := "http://127.0.0.1"
    method := "GET"
    path := "/latest"
    pathParams := []
    queryParams := []
    headers := []
    contentType := none
    body := none }

/-- A relay request declaring a JSON content type whose body text is not
valid JSON. -/
def cBadJsonReq : RelayRequest :=
  { baseUrl := "https://api.example.com"
    method := "POST"
    path := "/x"
    pathParams := []
    queryParams := []
    headers := []
    contentType := some "application/json"
    body := some "\x7bnot json" }

/-- Discriminators on relay outcomes, for stating reachability facts. -/
def isUpstreamCallOutcome : RelayOutcome → Bool
  | .upstreamCall _ _ _ _ => true
  | _ => false

def isErrorResponseOutcome : RelayOutcome → Bool
  | .errorResponse _ _ => true
  | _ => false

/-- The request of the claimed header-filtering example. -/
def cHdrReq : RelayRequest :=
  { baseUrl := "https://api.example.com"
    method := "GET"
    path := "/x"
    pathParams := []
    queryParams := []
    headers := [("Host", "x"), ("Authorization", "Bearer t"), ("Connection", "keep-alive")]
    contentType := none
    body := none }

/-- A relay request supplying a `contentType` but no `content-type`
header. -/
def cCtReq : RelayRequest :=
  { baseUrl := "https://api.example.com"
    method := "POST"
    path := "/x"
    pathParams := []
    queryParams := []
    headers := [("Authorization", "Bearer t")]
    contentType := some "text/plain"
    body := none }

/-- A document with two paths whose keys order differently under ordinal
and locale-aware comparison. -/
def cLocaleDoc : Json :=
  Json.obj [("paths", Json.obj [("/B", Json.obj [("get", Json.obj [])]),
    ("/a", Json.obj [("get", Json.obj [])])])]

/-- A path item declaring one valid path-level parameter (plus two invalid
entries) and an operation declaring one query parameter. -/
def cPathItem : Json :=
  Json.obj [("parameters", Json.arr [
    Json.obj [("name", Json.str "id"), ("in", Json.str "path")],
    Json.obj [("name", Json.str "bad")],
    Json.null])]

def cOpItem : Json :=
  Json.obj [("parameters", Json.arr [
    Json.obj [("name", Json.str "q"), ("in", Json.str "query")]])]

/-! ## Schema-valid states and fuel accounting for the state round trip -/

/-- Keys of an association list are pairwise distinct.  A JavaScript object
cannot carry the same key twice, so the records of a real `AppState` always
satisfy this. -/
def keysNodup {α : Type} : List (String × α) → Bool
  | [] => true
  | (k, _) :: t => !(t.any (fun p => p.1 == k)) && keysNodup t

/-- An `AppState` value satisfying `appStateSchema`: the base URL parses (or
is the empty fallback), a present spec URL parses, and the three parameter
records are genuine JavaScript objects (distinct keys). -/
def validAppState (s : AppState) : Bool :=
  (zodUrlValid s.baseUrl || s.baseUrl == "") &&
  (match s.specUrl with | some u => zodUrlValid u | none => true) &&
  keysNodup s.pathParams && keysNodup s.queryParams && keysNodup s.headerParams

/-- A string record as the JSON object `JSON.stringify` serialises it to. -/
def strPairs (l : List (String × String)) : List (String × Json) :=
  l.map (fun p => (p.1, Json.str p.2))

def isStrVal : Json → Bool
  | .str _ => true
  | _ => false

/-- The JSON values appearing as members of a serialised `AppState`:
strings, and string-valued objects. -/
def shallowVal : Json → Bool
  | .str _ => true
  | .obj fs => fs.all (fun kv => isStrVal kv.2)
  | _ => false

/-- Parser fuel sufficient for one shallow value (with arbitrary slack
below). -/
def valCost : Json → Nat
  | .obj fs => 2 * fs.length + 2
  | _ => 1

/-- Parser fuel sufficient for a non-empty field list of shallow values. -/
def fieldsCost : List (String × Json) → Nat
  | [] => 0
  | (_, v) :: t => valCost v + 1 + fieldsCost t

/-- What `JSON.parse` makes of a shallow value: object members get the
duplicate-key treatment, everything else is unchanged. -/
def normVal : Json → Json
  | .obj fs => .obj (dedupJsonFields fs)
  | v => v

/-- A linear congruential generator (the classical glibc multiplier): a
cheap source of high-entropy text.  DEFLATE cannot compress n of these
letters (about 4.7 bits of entropy each) below 20,000 bytes once n is
60,000, so the oversized-payload fallback also binds for the real pako
codec, not only for the identity compression of the model. -/
def lcgNext (x : Nat) : Nat := (x * 1103515245 + 12345) % 2147483648

def lcgChars : Nat → Nat → List Char
  | 0, _ => []
  | n + 1, x => Char.ofNat (97 + x % 26) :: lcgChars n (lcgNext x)

/-- A schema-valid state whose serialisation exceeds the 20,000-byte cap. -/
def bigState : AppState :=
  { defaultAppState with bodyJson := ⟨lcgChars 60000 1⟩ }

/-- A concrete schema-valid state exercising every member of the schema. -/
def c9State : AppState :=
  { baseUrl := "https://api.example.com"
    specUrl := some "https://api.example.com/openapi.json"
    operationKey := some "GET /users"
    manualMethod := "POST"
    manualPath := "/x"
    pathParams := [("id", "42")]
    queryParams := [("active", "true")]
    headerParams := [("x-a", "1")]
    contentType := "application/json"
    bodyJson := "[1, 2]" }

/-! ### THEOREMS -/

/-- Core equivalence behind claim C2: on any URL whose hostname is
quad-canonical (as every WHATWG-parsed hostname is), the guard rejects
exactly under the claimed conditions. -/
theorem isSafeTarget_eq_false_iff (u : Url) (h : hostQuadOctetsValid u.host = true) :
    isSafeTarget u = false ↔ claimC2Rejects u = true := by
  unfold isSafeTarget claimC2Rejects
  unfold hostQuadOctetsValid at h
  cases hq : quadParts (asciiLower u.host) with
  | none =>
    simp only [hq]
    generalize (u.scheme == "http" || u.scheme == "https") = s
    generalize (asciiLower u.host == "localhost" ||
      strEndsWith (asciiLower u.host) ".localhost") = l
    generalize (asciiLower u.host == "0.0.0.0" || asciiLower u.host == "127.0.0.1" ||
      asciiLower u.host == "::1") = i
    generalize (asciiLower u.host == "169.254.169.254") = m
    revert s l i m; decide
  | some parts =>
    obtain ⟨a, b, c, d⟩ := parts
    rw [hq] at h
    dsimp only at h
    simp only [hq]
    generalize (u.scheme == "http" || u.scheme == "https") = s
    generalize (asciiLower u.host == "localhost" ||
      strEndsWith (asciiLower u.host) ".localhost") = l
    generalize (asciiLower u.host == "0.0.0.0" || asciiLower u.host == "127.0.0.1" ||
      asciiLower u.host == "::1") = i
    generalize (asciiLower u.host == "169.254.169.254") = m
    generalize (decimalValue a == 10) = q1 at *
    generalize (decimalValue a == 192 && decimalValue b == 168) = q2 at *
    generalize (decimalValue a == 172 && decide (16 ≤ decimalValue b) &&
      decide (decimalValue b ≤ 31)) = q3 at *
    generalize (decide (decimalValue a ≤ 255)) = da at *
    generalize (decide (decimalValue b ≤ 255)) = db at *
    generalize (decide (decimalValue c ≤ 255)) = dc at *
    generalize (decide (decimalValue d ≤ 255)) = dd at *
    revert s l i m q1 q2 q3 da db dc dd h; decide

/-- C2: `isSafeTarget` rejects exactly under the claimed conditions (for
quad-canonical hostnames, which is every hostname the URL parser can
produce), and behaves as claimed on the named examples: it rejects
`http://localhost/x`, `http://127.0.0.1/`,
`http://169.254.169.254/latest/meta-data`, `http://10.1.2.3/`,
`http://192.168.1.1/`, `http://172.20.0.5/` and an `ftp://` URL, and
accepts `https://api.example.com/`. -/
theorem C2_isSafeTarget_characterisation :
    (∀ u : Url, hostQuadOctetsValid u.host = true →
      (isSafeTarget u = false ↔ claimC2Rejects u = true)) ∧
    ((parseUrl "http://localhost/x").map isSafeTarget = some false) ∧
    ((parseUrl "http://127.0.0.1/").map isSafeTarget = some false) ∧
    ((parseUrl "http://169.254.169.254/latest/meta-data").map isSafeTarget = some false) ∧
    ((parseUrl "http://10.1.2.3/").map isSafeTarget = some false) ∧
    ((parseUrl "http://192.168.1.1/").map isSafeTarget = some false) ∧
    ((parseUrl "http://172.20.0.5/").map isSafeTarget = some false) ∧
    ((parseUrl "ftp://api.example.com/file").map isSafeTarget = some false) ∧
    ((parseUrl "https://api.example.com/").map isSafeTarget = some true) := by
  refine ⟨fun u h => isSafeTarget_eq_false_iff u h, ?_, ?_, ?_, ?_, ?_, ?_, ?_, ?_⟩ <;> decide

/-- Witness for C2: the characterisation applied to a concrete public URL,
discharging the quad-canonical hypothesis there. -/
theorem C2_isSafeTarget_characterisation_witness :
    isSafeTarget (mkUrl "https" "203.0.113.9" "/") = true := by
  have h := (C2_isSafeTarget_characterisation.1 (mkUrl "https" "203.0.113.9" "/") (by decide))
  rcases hb : isSafeTarget (mkUrl "https" "203.0.113.9" "/") with _ | _
  · exact absurd (h.mp hb) (by decide)
  · rfl

/-- Resolving a reference that begins with a single slash keeps the base's
scheme, host and port: only the path and query are replaced. -/
theorem resolveRef_singleSlash (ref : String) (base : Url)
    (h : startsWithSingleSlash ref = true) :
    ∃ p q, resolveRef ref base = some { base with path := p, query := q } := by
  unfold startsWithSingleSlash at h
  unfold resolveRef
  match hd : ref.data with
  | [] => rw [hd] at h; simp at h
  | c :: rest =>
    rw [hd] at h
    simp only [Bool.and_eq_true, beq_iff_eq] at h
    obtain ⟨hc, hrest⟩ := h
    subst hc
    have hscheme : splitScheme ('/' :: rest) = none := by
      simp [splitScheme, show isSchemeStartChar '/' = false from by decide]
    dsimp only
    rw [hscheme]
    unfold resolveNoScheme
    match rest with
    | [] => exact ⟨"/", none, rfl⟩
    | c2 :: t =>
      have hns : isSlashLike c2 = false := by
        simpa [List.head?_cons] using hrest
      simp only [show ((('/' : Char) == '?') = false) from by decide,
        show ((('/' : Char) == '#') = false) from by decide,
        show (isSlashLike '/' = true) from by decide,
        Bool.false_eq_true, if_false, if_true, hns]
      exact ⟨_, _, rfl⟩

/-- Setting query parameters never touches the scheme, host or port. -/
theorem applyQueryParams_preserves (u : Url) (qs : List (String × String)) :
    (applyQueryParams u qs).scheme = u.scheme ∧ (applyQueryParams u qs).host = u.host := by
  unfold applyQueryParams
  cases qs <;> exact ⟨rfl, rfl⟩

/-- The Host Safety Guard reads only the scheme and the hostname. -/
theorem isSafeTarget_congr (u v : Url) (hs : u.scheme = v.scheme) (hh : u.host = v.host) :
    isSafeTarget u = isSafeTarget v := by
  unfold isSafeTarget
  rw [hs, hh]

/-- C1 (amended): for a valid relay request whose base URL is public and
well-formed, and whose substituted path template is a plain absolute-path
reference (a single leading slash), the built target keeps the base URL's
host and the guard accepts it.  The original claim quantified over all path
templates, which fails for templates that are themselves absolute or
protocol-relative URL references (see the counterexample). -/
theorem C1_public_base_host_preserved (req : RelayRequest) (base : Url)
    (hparse : parseUrl req.baseUrl = some base)
    (hsafe : isSafeTarget base = true)
    (hpath : startsWithSingleSlash (substTemplate req.pathParams req.path) = true) :
    ∃ target, buildTargetUrl req = some target ∧ target.host = base.host ∧
      isSafeTarget target = true := by
  obtain ⟨p, q, hres⟩ := resolveRef_singleSlash (substTemplate req.pathParams req.path) base hpath
  refine ⟨applyQueryParams { base with path := p, query := q } req.queryParams, ?_, ?_, ?_⟩
  · unfold buildTargetUrl
    rw [hparse]
    dsimp only
    rw [hres]
  · exact (applyQueryParams_preserves _ _).2
  · calc isSafeTarget (applyQueryParams { base with path := p, query := q } req.queryParams)
        = isSafeTarget base :=
          isSafeTarget_congr _ _ (applyQueryParams_preserves _ _).1
            (applyQueryParams_preserves _ _).2
      _ = true := hsafe

/-- Witness for C1: the amended statement applied to the concrete request
of the worked example, all hypotheses discharged by evaluation. -/
theorem C1_public_base_host_preserved_witness :
    ∃ target, buildTargetUrl c6Req = some target ∧ target.host = "api.example.com" ∧
      isSafeTarget target = true := by
  obtain ⟨t, h1, h2, h3⟩ := C1_public_base_host_preserved c6Req
    (mkUrl "https" "api.example.com" "/") (by decide) (by decide) (by decide)
  exact ⟨t, h1, h2, h3⟩

/-- Counterexample to C1 as stated: a valid relay request with the public,
well-formed base URL `https://api.example.com` and path template
`https://evil.example.org/` builds a target the guard accepts whose host is
not the base URL's host — relative-URL resolution lets an absolute-URL
path template replace the authority. -/
theorem C1_counterexample :
    parseUrl cEvilReq.baseUrl = some (mkUrl "https" "api.example.com" "/") ∧
    isSafeTarget (mkUrl "https" "api.example.com" "/") = true ∧
    buildTargetUrl cEvilReq = some (mkUrl "https" "evil.example.org" "/") ∧
    isSafeTarget (mkUrl "https" "evil.example.org" "/") = true ∧
    (mkUrl "https" "evil.example.org" "/").host ≠ (mkUrl "https" "api.example.com" "/").host := by
  refine ⟨by decide, by decide, by decide, by decide, by decide⟩

/-- C3: whenever the base URL fails to build (the `new URL` constructor
throws) or the Host Safety Guard rejects the built target, the relay
handler returns a 400 error response, and in those branches no outbound
call is made — the handler's outcome is never an `upstreamCall`. -/
theorem C3_no_fetch_on_validation_failure (req : RelayRequest) :
    (buildTargetUrl req = none →
      relayHandler req = RelayOutcome.errorResponse 400 "Invalid URL") ∧
    (∀ t, buildTargetUrl req = some t → isSafeTarget t = false →
      relayHandler req = RelayOutcome.errorResponse 400 "Blocked target host") ∧
    ((buildTargetUrl req = none ∨
      ∃ t, buildTargetUrl req = some t ∧ isSafeTarget t = false) →
      isUpstreamCallOutcome (relayHandler req) = false) := by
  unfold relayHandler
  cases hb : buildTargetUrl req with
  | none =>
    refine ⟨fun _ => rfl, fun t ht => by simp at ht, fun _ => by simp [isUpstreamCallOutcome]⟩
  | some t0 =>
    refine ⟨fun hn => by simp at hn, ?_, ?_⟩
    · intro t ht hblocked
      obtain rfl : t0 = t := by simpa using ht
      simp [hblocked]
    · rintro (hn | ⟨t, ht, hblocked⟩)
      · simp at hn
      · obtain rfl : t0 = t := by simpa using ht
        simp [hblocked, isUpstreamCallOutcome]

/-- Witness for C3: a request targeting `http://127.0.0.1` is answered with
the blocked-target 400 response and never reaches the outbound call. -/
theorem C3_no_fetch_on_validation_failure_witness :
    relayHandler cBlockedReq = RelayOutcome.errorResponse 400 "Blocked target host" ∧
    isUpstreamCallOutcome (relayHandler cBlockedReq) = false := by
  have h := C3_no_fetch_on_validation_failure cBlockedReq
  refine ⟨h.2.1 (mkUrl "http" "127.0.0.1" "/latest") (by decide) (by decide), ?_⟩
  exact h.2.2 (Or.inr ⟨mkUrl "http" "127.0.0.1" "/latest", by decide, by decide⟩)

/-- C4 (code bug): a relay request declaring `application/json` whose body
text is not valid JSON makes `coerceBody`'s `JSON.parse` throw with no
enclosing handler — the outcome is an uncaught exception, not the
structured 4xx `InvalidBody` response the specification requires.  The
second conjunct records the further divergence that a content type merely
containing `json` (here `text/json`) is forwarded as literal text rather
than parsed: `coerceBody` tests for the substring `application/json`. -/
theorem C4_invalid_json_body_uncaught :
    (relayHandler cBadJsonReq = RelayOutcome.uncaughtException ∧
      isErrorResponseOutcome (relayHandler cBadJsonReq) = false) ∧
    relayHandler { cBadJsonReq with contentType := some "text/json", body := some "not json" } =
      RelayOutcome.upstreamCall (mkUrl "https" "api.example.com" "/x") "POST"
        [("content-type", "text/json")] (some "not json") := by
  exact ⟨⟨by decide, by decide⟩, by decide⟩

/-- Skipping empty and hop-by-hop names while folding `Headers.set` is the
same as filtering them out first. -/
theorem buildUpstreamHeaders_none_eq_filter_aux
    (hs : List (String × String)) (acc : List (String × String)) :
    hs.foldl
      (fun acc kv =>
        if kv.1 == "" then acc
        else if isHopByHopHeader kv.1 then acc
        else headersSet acc kv.1 kv.2) acc =
    (hs.filter (fun kv => !(kv.1 == "") && !isHopByHopHeader kv.1)).foldl
      (fun acc kv => headersSet acc kv.1 kv.2) acc := by
  induction hs generalizing acc with
  | nil => rfl
  | cons kv t ih =>
    simp only [List.foldl_cons, List.filter_cons]
    by_cases h1 : (kv.1 == "") = true
    · have hp : (!(kv.1 == "") && !isHopByHopHeader kv.1) = false := by rw [h1]; rfl
      rw [if_pos h1, hp]
      simp only [Bool.false_eq_true, if_false]
      exact ih acc
    · by_cases h2 : isHopByHopHeader kv.1 = true
      · have hp : (!(kv.1 == "") && !isHopByHopHeader kv.1) = false := by rw [h2]; simp
        rw [if_neg h1, if_pos h2, hp]
        simp only [Bool.false_eq_true, if_false]
        exact ih acc
      · have hp : (!(kv.1 == "") && !isHopByHopHeader kv.1) = true := by
          simp only [Bool.and_eq_true, Bool.not_eq_true']
          exact ⟨by simpa using h1, by simpa using h2⟩
        rw [if_neg h1, if_neg h2, hp]
        simp only [if_true]
        exact ih (headersSet acc kv.1 kv.2)

/-- C5 (amended): the headers forwarded upstream are exactly the
caller-supplied headers minus the fixed hop-by-hop set (names matched
case-insensitively and normalised to lower case by `Headers`), except that
when a non-empty `contentType` is supplied and no `content-type` header
survives the filter, that content type is appended.  The original claim
omitted the injection (see the counterexample).  The worked example
`{Host: x, Authorization: Bearer t, Connection: keep-alive}` yields exactly
`{authorization: Bearer t}`. -/
theorem C5_forwarded_headers_characterisation :
    (∀ headers : List (String × String),
      buildUpstreamHeaders headers none =
        (headers.filter (fun kv => !(kv.1 == "") && !isHopByHopHeader kv.1)).foldl
          (fun acc kv => headersSet acc kv.1 kv.2) []) ∧
    (∀ headers ct,
      buildUpstreamHeaders headers (some ct) =
        if ct != "" && !headersHas (buildUpstreamHeaders headers none) "content-type" then
          headersSet (buildUpstreamHeaders headers none) "content-type" ct
        else buildUpstreamHeaders headers none) ∧
    (∀ req t m hs b, relayHandler req = RelayOutcome.upstreamCall t m hs b →
      hs = buildUpstreamHeaders req.headers req.contentType) ∧
    buildUpstreamHeaders [("Host", "x"), ("Authorization", "Bearer t"),
      ("Connection", "keep-alive")] none = [("authorization", "Bearer t")] := by
  refine ⟨?_, fun _ _ => rfl, ?_, by decide⟩
  · intro headers
    exact buildUpstreamHeaders_none_eq_filter_aux headers []
  · intro req t m hs b h
    unfold relayHandler at h
    cases hb : buildTargetUrl req with
    | none => rw [hb] at h; simp at h
    | some t0 =>
      rw [hb] at h
      by_cases hsafe : isSafeTarget t0 = true
      · simp only [hsafe, Bool.not_true, Bool.false_eq_true, if_false] at h
        by_cases hbody : (!(asciiUpper req.method == "GET" || asciiUpper req.method == "HEAD") &&
            !(req.body.getD "" == "")) = true
        · rw [if_pos hbody] at h
          cases hc : coerceBody req with
          | none => rw [hc] at h; simp at h
          | some bb => rw [hc] at h; injection h with h1 h2 h3 h4; exact h3.symm
        · rw [if_neg hbody] at h
          injection h with h1 h2 h3 h4; exact h3.symm
      · simp only [Bool.not_eq_true] at hsafe
        simp [hsafe] at h

/-- Witness for C5: the characterisation's handler connection applied to the
worked example request. -/
theorem C5_forwarded_headers_characterisation_witness :
    [("authorization", "Bearer t")] = buildUpstreamHeaders cHdrReq.headers cHdrReq.contentType := by
  exact C5_forwarded_headers_characterisation.2.2.1 cHdrReq
    (mkUrl "https" "api.example.com" "/x") "GET" [("authorization", "Bearer t")] none (by decide)

/-- Counterexample to C5 as stated: with `contentType: text/plain` supplied
and no caller `content-type` header, the forwarded headers contain a
`content-type` entry that is not among the caller-supplied headers, so the
forwarded set is not exactly the caller's headers minus the fixed list. -/
theorem C5_counterexample :
    relayHandler cCtReq =
      RelayOutcome.upstreamCall (mkUrl "https" "api.example.com" "/x") "POST"
        [("authorization", "Bearer t"), ("content-type", "text/plain")] none ∧
    (cCtReq.headers.map (fun kv => asciiLower kv.1)).contains "content-type" = false := by
  exact ⟨by decide, by decide⟩

/-- Scanning a token body free of closing braces just accumulates it. -/
theorem substBraceAux_through (pp : List (String × String)) (name acc rest : List Char)
    (h : name.all (fun c => !(c == '}')) = true) :
    substBraceAux pp acc (name ++ '}' :: rest) =
      substBraceAux pp (name.reverse ++ acc) ('}' :: rest) := by
  induction name generalizing acc with
  | nil => simp
  | cons c t ih =>
    simp only [List.all_cons, Bool.and_eq_true, Bool.not_eq_true'] at h
    obtain ⟨hc, ht⟩ := h
    simp only [List.cons_append]
    rw [substBraceAux]
    simp only [hc, Bool.false_eq_true, if_false]
    rw [ih (c :: acc) (by simpa using ht)]
    simp

/-- One `{name}` token is replaced by the percent-encoding of the matching
path parameter (or of the empty string when it is absent), and scanning
resumes after the token. -/
theorem substMainAux_token (pp : List (String × String)) (name rest : List Char)
    (h1 : name ≠ []) (h2 : name.all (fun c => !(c == '}')) = true) :
    substMainAux pp ('{' :: (name ++ '}' :: rest)) =
      ((lookupAssoc pp ⟨name⟩).getD "").data.flatMap encodeURIComponentChar ++
        substMainAux pp rest := by
  rw [substMainAux]
  simp only [show (('{' : Char) == '{') = true from rfl, if_true]
  rw [substBraceAux_through pp name [] rest h2]
  rw [substBraceAux]
  have hne : name.reverse.isEmpty = false := by
    simp [List.isEmpty_iff, h1]
  simp only [show (('}' : Char) == '}') = true from rfl, if_true, List.append_nil, hne,
    Bool.false_eq_true, if_false, List.reverse_reverse]

/-- C6: `buildTargetUrl` replaces every `{name}` token by the
`encodeURIComponent` of `pathParams[name]`, substitutes the empty string
(without failing) when the parameter is absent, resolves against the base
URL and sets every query parameter; the worked example yields
`https://api.example.com/users/7%208?active=true` and the missing-parameter
variant yields an empty substitution. -/
theorem C6_buildTargetUrl_behaviour :
    (∀ (pp : List (String × String)) (name rest : List Char),
      name ≠ [] → name.all (fun c => !(c == '}')) = true →
      substMainAux pp ('{' :: (name ++ '}' :: rest)) =
        ((lookupAssoc pp ⟨name⟩).getD "").data.flatMap encodeURIComponentChar ++
          substMainAux pp rest) ∧
    (∀ (pp : List (String × String)) (name rest : List Char),
      name ≠ [] → name.all (fun c => !(c == '}')) = true →
      lookupAssoc pp ⟨name⟩ = none →
      substMainAux pp ('{' :: (name ++ '}' :: rest)) = substMainAux pp rest) ∧
    ((buildTargetUrl c6Req).map serializeUrl =
      some "https://api.example.com/users/7%208?active=true") ∧
    ((buildTargetUrl { c6Req with pathParams := [] }).map serializeUrl =
      some "https://api.example.com/users/?active=true") := by
  refine ⟨substMainAux_token, ?_, by decide, by decide⟩
  intro pp name rest h1 h2 habs
  rw [substMainAux_token pp name rest h1 h2, habs]
  rfl

/-- Witness for C6: the token rule applied to the worked example's
parameter list, with the hypotheses discharged on the concrete token. -/
theorem C6_buildTargetUrl_behaviour_witness :
    substMainAux [("id", "7 8")] ['{', 'i', 'd', '}'] = "7%208".data := by
  have h := C6_buildTargetUrl_behaviour.1 [("id", "7 8")] ['i', 'd'] []
    (by decide) (by decide)
  exact h.trans (by decide)

theorem listLexLe_total : ∀ a b : List Nat, listLexLe a b = true ∨ listLexLe b a = true
  | [], _ => Or.inl rfl
  | _ :: _, [] => Or.inr rfl
  | a :: as, b :: bs => by
    rcases Nat.lt_trichotomy a b with h | h | h
    · left; simp [listLexLe, h]
    · subst h
      rcases listLexLe_total as bs with ht | ht
      · left; simp [listLexLe, lt_irrefl, ht]
      · right; simp [listLexLe, lt_irrefl, ht]
    · right; simp [listLexLe, h]

theorem listLexLe_trans : ∀ a b c : List Nat,
    listLexLe a b = true → listLexLe b c = true → listLexLe a c = true
  | [], _, _, _, _ => rfl
  | _ :: _, [], _, hab, _ => by simp [listLexLe] at hab
  | _ :: _, _ :: _, [], _, hbc => by simp [listLexLe] at hbc
  | a :: as, b :: bs, c :: cs, hab, hbc => by
    simp only [listLexLe] at hab hbc ⊢
    rcases Nat.lt_trichotomy a b with h1 | h1 | h1
    · rcases Nat.lt_trichotomy b c with h2 | h2 | h2
      · simp [show a < c from lt_trans h1 h2]
      · subst h2; simp [h1]
      · simp [h2, lt_asymm h2] at hbc
    · subst h1
      rcases Nat.lt_trichotomy a c with h2 | h2 | h2
      · simp [h2]
      · subst h2
        simp only [lt_irrefl, if_false] at hab hbc ⊢
        exact listLexLe_trans as bs cs hab hbc
      · simp [h2, lt_asymm h2] at hbc
    · simp [h1, lt_asymm h1] at hab

/-- C7 (amended): for every input document the reducer's operations come
out sorted ascending by key under the locale-aware `localeCompare`
collation the code actually uses — not under ordinal code-unit comparison,
which the original claim asserted (see the counterexample).  For a fixed
input and collation environment the output order is still deterministic. -/
theorem C7_operations_sorted_by_locale (doc : Json) :
    List.Sorted opLe (reduceOpenApiSpec doc).operations := by
  haveI : IsTotal OperationShape opLe :=
    ⟨fun a b => listLexLe_total (collationKey a.key) (collationKey b.key)⟩
  haveI : IsTrans OperationShape opLe :=
    ⟨fun a b c => listLexLe_trans (collationKey a.key) (collationKey b.key)
      (collationKey c.key)⟩
  exact List.sorted_insertionSort opLe _

/-- Counterexample to C7 as stated: on a document with paths `/B` and `/a`
the reducer emits keys `["GET /a", "GET /B"]` (locale order), although
`"GET /B"` precedes `"GET /a"` ordinally — the output is not sorted by
ordinal code-unit comparison. -/
theorem C7_counterexample :
    (reduceOpenApiSpec cLocaleDoc).operations.map (fun o => o.key) =
      ["GET /a", "GET /B"] ∧
    ordinalLt "GET /B".data "GET /a".data = true ∧
    ordinalLe "GET /a" "GET /B" = false := by
  refine ⟨by decide, by decide, by decide⟩

/-- After a cache write the entry found under the written URL is exactly
the written value with expiry `now + ttl * 1000`. -/
theorem writeCacheLocal_find (cache : List (String × CacheEntry)) (url : String)
    (v : SpecShape) (now ttl : Nat) :
    (writeCacheLocal cache url v now ttl).find? (fun p => p.1 == url) =
      some (url, { value := v, expiresAt := now + ttl * 1000 }) := by
  unfold writeCacheLocal
  by_cases h : cache.any (fun p => p.1 == url) = true
  · rw [if_pos h]
    induction cache with
    | nil => simp at h
    | cons p t ih =>
      by_cases hp : (p.1 == url) = true
      · simp [List.find?, hp]
      · simp only [List.any_cons, hp, Bool.false_or] at h
        simp only [List.map_cons, if_neg hp]
        rw [List.find?_cons_of_neg _ (by simpa using hp)]
        exact ih h
  · rw [if_neg h]
    induction cache with
    | nil => simp [List.find?]
    | cons p t ih =>
      simp only [List.any_cons, Bool.or_eq_true, not_or] at h
      obtain ⟨hp, ht⟩ := h
      simp only [Bool.not_eq_true] at hp
      simp only [List.cons_append, List.find?, hp]
      exact ih (by simpa using ht)

/-- C8: after `writeCache` stores a value at time `wNow` with a TTL, the
local tier serves it at exactly the instants strictly before
`wNow + ttl*1000` and treats the entry as absent otherwise; with the 60 s
TTL a lookup 59 s after the write is served unchanged and a lookup 61 s
after the write is a miss. -/
theorem C8_cache_expiry_window :
    (∀ (cache : List (String × CacheEntry)) (url : String) (v : SpecShape) (wNow ttl rNow : Nat),
      readCacheLocal (writeCacheLocal cache url v wNow ttl) url rNow =
        if rNow < wNow + ttl * 1000 then some v else none) ∧
    (∀ (cache : List (String × CacheEntry)) (url : String) (v : SpecShape) (wNow : Nat),
      readCacheLocal (writeCacheLocal cache url v wNow 60) url (wNow + 59000) = some v) ∧
    (∀ (cache : List (String × CacheEntry)) (url : String) (v : SpecShape) (wNow : Nat),
      readCacheLocal (writeCacheLocal cache url v wNow 60) url (wNow + 61000) = none) := by
  have main : ∀ (cache : List (String × CacheEntry)) (url : String) (v : SpecShape)
      (wNow ttl rNow : Nat),
      readCacheLocal (writeCacheLocal cache url v wNow ttl) url rNow =
        if rNow < wNow + ttl * 1000 then some v else none := by
    intro cache url v wNow ttl rNow
    unfold readCacheLocal
    rw [writeCacheLocal_find]
    rfl
  refine ⟨main, fun cache url v wNow => ?_, fun cache url v wNow => ?_⟩
  · rw [main, if_pos (by omega)]
  · rw [main, if_neg (by omega)]

/-- C10: the merged parameter list is the reduction of the path-item-level
list followed by the reduction of the operation-level list — all path-level
parameters precede all operation-level ones, each group in document order
(the reduction maps entries in place, dropping invalid ones).  On the
concrete example the path-level `id` precedes the operation-level `q`, with
the invalid entries dropped. -/
theorem C10_parameter_merge_order :
    (∀ pathItem op : Json,
      collectParameters pathItem op =
        (jsArrayItems (pathItem.getField "parameters")).filterMap reduceOneParameter ++
          (jsArrayItems (op.getField "parameters")).filterMap reduceOneParameter) ∧
    (collectParameters cPathItem cOpItem).map (fun p => (p.name, p.location)) =
      [("id", "path"), ("q", "query")] := by
  refine ⟨fun pathItem op => ?_, by rfl⟩
  unfold collectParameters
  exact List.filterMap_append _ _ _

/-- The scalar value of a character is in a valid range. -/
theorem char_toNat_valid (c : Char) :
    c.toNat < 0xD800 ∨ (0xDFFF < c.toNat ∧ c.toNat < 0x110000) := c.valid

/-- Decoding the UTF-8 bytes of one character recovers it and continues. -/
theorem utf8DecodeLossy_encodeChar (c : Char) (rest : List Nat) :
    utf8DecodeLossy (utf8EncodeChar c ++ rest) = c :: utf8DecodeLossy rest := by
  have hv := char_toNat_valid c
  unfold utf8EncodeChar
  by_cases h1 : c.toNat < 0x80
  · rw [if_pos h1]
    rw [List.cons_append, List.nil_append, utf8DecodeLossy]
    rw [if_pos h1]
    unfold charOrRepl
    rw [if_pos (by omega)]
    rw [Char.ofNat_toNat]
  · rw [if_neg h1]
    by_cases h2 : c.toNat < 0x800
    · rw [if_pos h2]
      rw [List.cons_append, List.cons_append, List.nil_append, utf8DecodeLossy]
      rw [if_neg (by omega)]
      rw [if_pos (by simp only [Bool.and_eq_true, decide_eq_true_eq]; constructor <;> omega)]
      rw [utf8DecodeCont2]
      rw [if_pos (by unfold isUtf8Cont; simp only [Bool.and_eq_true, decide_eq_true_eq]; omega)]
      have harith : (0xC0 + c.toNat / 64 - 0xC0) * 64 + (0x80 + c.toNat % 64 - 0x80) =
          c.toNat := by omega
      rw [harith]
      unfold charOrRepl
      rw [if_pos (by omega)]
      rw [Char.ofNat_toNat]
    · rw [if_neg h2]
      by_cases h3 : c.toNat < 0x10000
      · rw [if_pos h3]
        rw [List.cons_append, List.cons_append, List.cons_append, List.nil_append,
          utf8DecodeLossy]
        rw [if_neg (by omega)]
        rw [if_neg (by simp only [Bool.and_eq_true, decide_eq_true_eq]; omega)]
        rw [if_pos (by simp only [Bool.and_eq_true, decide_eq_true_eq]; constructor <;> omega)]
        rw [utf8DecodeCont3]
        rw [if_pos (by unfold isUtf8Cont
                       simp only [Bool.and_eq_true, decide_eq_true_eq]; omega)]
        have harith : (0xE0 + c.toNat / 4096 - 0xE0) * 4096 +
            (0x80 + c.toNat / 64 % 64 - 0x80) * 64 + (0x80 + c.toNat % 64 - 0x80) =
            c.toNat := by omega
        rw [harith]
        unfold charOrRepl
        rw [if_pos (by omega)]
        rw [Char.ofNat_toNat]
      · rw [if_neg h3]
        rw [List.cons_append, List.cons_append, List.cons_append, List.cons_append,
          List.nil_append, utf8DecodeLossy]
        rw [if_neg (by omega)]
        rw [if_neg (by simp only [Bool.and_eq_true, decide_eq_true_eq]; omega)]
        rw [if_neg (by simp only [Bool.and_eq_true, decide_eq_true_eq]; omega)]
        rw [if_pos (by simp only [Bool.and_eq_true, decide_eq_true_eq]; constructor <;> omega)]
        rw [utf8DecodeCont4]
        rw [if_pos (by unfold isUtf8Cont
                       simp only [Bool.and_eq_true, decide_eq_true_eq]; omega)]
        have harith : (0xF0 + c.toNat / 262144 - 0xF0) * 262144 +
            (0x80 + c.toNat / 4096 % 64 - 0x80) * 4096 +
            (0x80 + c.toNat / 64 % 64 - 0x80) * 64 + (0x80 + c.toNat % 64 - 0x80) =
            c.toNat := by omega
        rw [harith]
        unfold charOrRepl
        rw [if_pos (by omega)]
        rw [Char.ofNat_toNat]

/-- UTF-8 round trip over whole strings. -/
theorem utf8DecodeLossy_utf8Encode (s : String) : utf8DecodeLossy (utf8Encode s) = s.data := by
  unfold utf8Encode
  induction s.data with
  | nil => simp [utf8DecodeLossy]
  | cons c t ih =>
    rw [List.flatMap_cons]
    rw [utf8DecodeLossy_encodeChar, ih]

theorem sextetChar_spec (n : Nat) :
    (n < 64 ∧ sextetChar n ∈ base64Alphabet) ∨ (64 ≤ n ∧ sextetChar n = '?') := by
  by_cases h : n < 64
  · left
    refine ⟨h, ?_⟩
    revert h
    revert n
    decide
  · right
    refine ⟨by omega, ?_⟩
    unfold sextetChar
    rw [List.getD_eq_default]
    exact le_of_not_lt (by simpa [base64Alphabet] using h)

theorem sextetChar_ne_eq (n : Nat) : sextetChar n ≠ '=' := by
  rcases sextetChar_spec n with ⟨_, hm⟩ | ⟨_, he⟩
  · intro hc; rw [hc] at hm; revert hm; decide
  · rw [he]; decide

theorem unswap_swap_sextetChar (n : Nat) :
    b64UnswapChar (b64SwapChar (sextetChar n)) = sextetChar n := by
  rcases sextetChar_spec n with ⟨_, hm⟩ | ⟨_, he⟩
  · revert hm
    generalize sextetChar n = c
    revert c
    decide
  · rw [he]; decide

theorem sextetOf_sextetChar (n : Nat) (h : n < 64) : sextetOf (sextetChar n) = some n := by
  revert h
  revert n
  decide

theorem btoa_eq_core_pad : ∀ b : List Nat,
    btoa b = b64core b ++ List.replicate (padLen b.length) '='
  | [] => rfl
  | [_] => rfl
  | [_, _] => rfl
  | b1 :: b2 :: b3 :: rest => by
    rw [btoa, b64core]
    have hlen : (b1 :: b2 :: b3 :: rest).length % 3 = rest.length % 3 := by
      simp only [List.length_cons]; omega
    have hpad : padLen (b1 :: b2 :: b3 :: rest).length = padLen rest.length := by
      unfold padLen; rw [hlen]
    rw [hpad, btoa_eq_core_pad rest]
    simp

theorem eq_not_mem_b64core : ∀ b : List Nat, '=' ∉ b64core b
  | [] => by simp [b64core]
  | [b1] => by
    simp only [b64core, List.mem_cons, List.mem_singleton, List.not_mem_nil]
    push_neg
    exact ⟨(sextetChar_ne_eq _).symm, (sextetChar_ne_eq _).symm, by simp⟩
  | [b1, b2] => by
    simp only [b64core, List.mem_cons, List.not_mem_nil]
    push_neg
    exact ⟨(sextetChar_ne_eq _).symm, (sextetChar_ne_eq _).symm,
      (sextetChar_ne_eq _).symm, by simp⟩
  | b1 :: b2 :: b3 :: rest => by
    simp only [b64core, List.mem_cons]
    push_neg
    exact ⟨(sextetChar_ne_eq _).symm, (sextetChar_ne_eq _).symm, (sextetChar_ne_eq _).symm,
      (sextetChar_ne_eq _).symm, eq_not_mem_b64core rest⟩

theorem b64core_length_pad : ∀ b : List Nat,
    3 - ((b64core b).length + 3) % 4 = padLen b.length
  | [] => by decide
  | [_] => by simp [b64core, padLen]
  | [_, _] => by simp [b64core, padLen]
  | b1 :: b2 :: b3 :: rest => by
    have h := b64core_length_pad rest
    simp only [b64core, List.length_cons]
    have hl : (b64core rest).length + 1 + 1 + 1 + 1 + 3 = ((b64core rest).length + 3) + 4 := by
      omega
    have hm : ((b64core rest).length + 1 + 1 + 1 + 1 + 3) % 4 = ((b64core rest).length + 3) % 4 := by
      omega
    rw [hm, h]
    have hlen : (rest.length + 1 + 1 + 1) % 3 = rest.length % 3 := by omega
    unfold padLen
    rw [hlen]

theorem dropWhile_replicate_append (k : Nat) (l : List Char) :
    List.dropWhile (fun c => c == '=') (List.replicate k '=' ++ l) =
      List.dropWhile (fun c => c == '=') l := by
  induction k with
  | zero => simp
  | succ n ih => simp [List.replicate_succ, List.dropWhile, ih]

theorem strip_pad (core : List Char) (k : Nat) (h : '=' ∉ core) :
    ((core ++ List.replicate k '=').reverse.dropWhile (fun c => c == '=')).reverse = core := by
  rw [List.reverse_append, List.reverse_replicate, dropWhile_replicate_append]
  cases hcr : core.reverse with
  | nil =>
    have : core = [] := by simpa using congrArg List.reverse hcr
    simp [this]
  | cons a t =>
    have ha : a ∈ core := by
      have : a ∈ core.reverse := by rw [hcr]; exact List.mem_cons_self a t
      simpa using this
    have hne : (a == '=') = false := by
      simp only [beq_eq_false_iff_ne, ne_eq]
      intro hc; rw [hc] at ha; exact h ha
    rw [List.dropWhile_cons_of_neg (by simp [hne])]
    rw [hcr.symm, List.reverse_reverse]

theorem b64core_chars : ∀ (b : List Nat) (c : Char), c ∈ b64core b → ∃ n, c = sextetChar n
  | [], c => by simp [b64core]
  | [b1], c => by
    simp only [b64core, List.mem_cons, List.not_mem_nil, or_false]
    rintro (rfl | rfl) <;> exact ⟨_, rfl⟩
  | [b1, b2], c => by
    simp only [b64core, List.mem_cons, List.not_mem_nil, or_false]
    rintro (rfl | rfl | rfl) <;> exact ⟨_, rfl⟩
  | b1 :: b2 :: b3 :: rest, c => by
    simp only [b64core, List.mem_cons]
    rintro (rfl | rfl | rfl | rfl | hm)
    · exact ⟨_, rfl⟩
    · exact ⟨_, rfl⟩
    · exact ⟨_, rfl⟩
    · exact ⟨_, rfl⟩
    · exact b64core_chars rest c hm

theorem swapChar_eq_pad_iff (c : Char) : b64SwapChar c = '=' → c = '=' := by
  unfold b64SwapChar
  split_ifs with h1 h2
  · intro h; exact absurd h (by decide)
  · intro h; exact absurd h (by decide)
  · exact id

/-- The stripped, URL-safe encoding is exactly the swapped unpadded core. -/
theorem encodeBase64Url_eq (b : List Nat) :
    encodeBase64Url b = (b64core b).map b64SwapChar := by
  unfold encodeBase64Url
  rw [btoa_eq_core_pad, List.map_append]
  have hrep : List.map b64SwapChar (List.replicate (padLen b.length) '=') =
      List.replicate (padLen b.length) '=' := by
    rw [List.map_replicate]; rfl
  rw [hrep]
  apply strip_pad
  intro hm
  obtain ⟨c, hc, hceq⟩ := List.mem_map.mp hm
  have : c = '=' := swapChar_eq_pad_iff c hceq
  subst this
  exact eq_not_mem_b64core b hc

theorem unswap_swap_core (b : List Nat) :
    ((b64core b).map b64SwapChar).map b64UnswapChar = b64core b := by
  rw [List.map_map]
  apply List.map_congr_left ?_ |>.trans (List.map_id _)
  intro c hc
  obtain ⟨n, rfl⟩ := b64core_chars b c hc
  exact unswap_swap_sextetChar n

theorem sextetChar_beq_eq_false (n : Nat) : (sextetChar n == '=') = false := by
  simp only [beq_eq_false_iff_ne, ne_eq]
  exact sextetChar_ne_eq n

theorem atobGroups_btoa : ∀ b : List Nat, (∀ x ∈ b, x < 256) →
    atobGroups (btoa b) = some b
  | [], _ => rfl
  | [b1], h => by
    have hb1 : b1 < 256 := h b1 (by simp)
    rw [btoa, atobGroups]
    rw [sextetOf_sextetChar _ (by omega), sextetOf_sextetChar _ (by omega)]
    have hcond : (('=' == '=') && ('=' == '=') && (List.isEmpty ([] : List Char))) = true := by
      decide
    simp only [hcond, if_true]
    have : b1 / 4 * 4 + b1 % 4 * 16 / 16 = b1 := by omega
    rw [this]
  | [b1, b2], h => by
    have hb1 : b1 < 256 := h b1 (by simp)
    have hb2 : b2 < 256 := h b2 (by simp)
    rw [btoa, atobGroups]
    rw [sextetOf_sextetChar _ (by omega), sextetOf_sextetChar _ (by omega)]
    simp only [sextetChar_beq_eq_false, Bool.false_and, Bool.false_eq_true, if_false]
    rw [sextetOf_sextetChar _ (by omega)]
    have hcond : (('=' == '=') && (List.isEmpty ([] : List Char))) = true := by decide
    simp only [hcond, if_true]
    have h1 : b1 / 4 * 4 + (b1 % 4 * 16 + b2 / 16) / 16 = b1 := by omega
    have h2 : (b1 % 4 * 16 + b2 / 16) % 16 * 16 + b2 % 16 * 4 / 4 = b2 := by omega
    rw [h1, h2]
  | b1 :: b2 :: b3 :: rest, h => by
    have hb1 : b1 < 256 := h b1 (by simp)
    have hb2 : b2 < 256 := h b2 (by simp)
    have hb3 : b3 < 256 := h b3 (by simp)
    have hrest : ∀ x ∈ rest, x < 256 := fun x hx => h x (by simp [hx])
    match rest, hrest with
    | rest, hrest =>
    rw [btoa, atobGroups]
    rw [sextetOf_sextetChar _ (by omega), sextetOf_sextetChar _ (by omega)]
    simp only [sextetChar_beq_eq_false, Bool.false_and, Bool.false_eq_true, if_false]
    rw [sextetOf_sextetChar _ (by omega)]
    simp only [sextetChar_beq_eq_false, Bool.false_and, Bool.false_eq_true, if_false]
    rw [sextetOf_sextetChar _ (by omega)]
    rw [atobGroups_btoa rest hrest]
    simp only [Option.map_some]
    have h1 : b1 / 4 * 4 + (b1 % 4 * 16 + b2 / 16) / 16 = b1 := by omega
    have h2 : (b1 % 4 * 16 + b2 / 16) % 16 * 16 + (b2 % 16 * 4 + b3 / 64) / 4 = b2 := by omega
    have h3 : (b2 % 16 * 4 + b3 / 64) % 4 * 64 + b3 % 64 = b3 := by omega
    rw [h1, h2, h3]
    rfl

/-- The base64url round trip of `src/lib/base64url.ts`: decoding the
encoding of any byte sequence recovers it exactly (the encoder strips the
padding, the decoder re-derives it from the length). -/
theorem decodeBase64Url_encodeBase64Url (b : List Nat) (h : ∀ x ∈ b, x < 256) :
    decodeBase64Url ⟨encodeBase64Url b⟩ = some b := by
  unfold decodeBase64Url
  dsimp only
  rw [encodeBase64Url_eq, unswap_swap_core, b64core_length_pad]
  rw [(btoa_eq_core_pad b).symm]
  exact atobGroups_btoa b h

theorem charOfNat_toNat (c : Char) : Char.ofNat c.toNat = c := Char.ofNat_toNat c

theorem hexLower_spec : ∀ d : Nat, d < 16 →
    isHexDigitChar (hexLowerDigit d) = true ∧ hexDigitValue (hexLowerDigit d) = d := by
  decide

theorem skipWs_cons_not (c : Char) (l : List Char) (h : isJsonWs c = false) :
    skipWs (c :: l) = c :: l := by
  simp [skipWs, List.dropWhile_cons, h]

theorem psb_quote (acc : List Char) (rest : List Char) :
    parseStringBody acc ('"' :: rest) = some (⟨acc.reverse⟩, rest) := by
  simp [parseStringBody]

theorem psb_ord (acc : List Char) (c : Char) (rest : List Char)
    (h1 : (c == '"') = false) (h2 : (c == '\\') = false) (h3 : ¬ c.toNat < 0x20) :
    parseStringBody acc (c :: rest) = parseStringBody (c :: acc) rest := by
  simp [parseStringBody, h1, h2, h3]

theorem psu_low (acc : List Char) (t : Nat) (ht : t < 0x20) (r : List Char) :
    parseStringUnicode acc ('0' :: '0' :: hexLowerDigit (t / 16) :: hexLowerDigit (t % 16) :: r) =
      parseStringBody (Char.ofNat t :: acc) r := by
  have s1 := hexLower_spec (t / 16) (by omega)
  have s2 := hexLower_spec (t % 16) (by omega)
  have h0 : hexDigitValue '0' = 0 := rfl
  have hh : isHexDigitChar '0' = true := rfl
  simp only [parseStringUnicode, s1.1, s2.1, s1.2, s2.2, h0, hh, Bool.and_self, Bool.true_and,
    if_true]
  have hv : ((0 * 16 + 0) * 16 + t / 16) * 16 + t % 16 = t := by omega
  rw [hv]
  rw [if_neg (by omega), if_neg (by omega)]
theorem psb_backslash (acc r : List Char) :
    parseStringBody acc ('\\' :: r) = parseStringEscape acc r := by
  simp [parseStringBody]

theorem parseStringBody_roundtrip : ∀ (l acc rest : List Char),
    parseStringBody acc (l.flatMap escapeJsonChar ++ '"' :: rest) =
      some (⟨acc.reverse ++ l⟩, rest)
  | [], acc, rest => by
    simp [psb_quote]
  | c :: l, acc, rest => by
    have ih := parseStringBody_roundtrip l
    rw [List.flatMap_cons, List.append_assoc]
    by_cases hq : c == '"'
    · have hc : c = '"' := beq_iff_eq.mp hq
      subst hc
      have he : escapeJsonChar '"' = ['\\', '"'] := rfl
      rw [he]
      simp only [List.cons_append, List.nil_append]
      rw [psb_backslash]
      rw [show ∀ r, parseStringEscape acc ('"' :: r) = parseStringBody ('"' :: acc) r from
        fun r => by simp [parseStringEscape]]
      rw [ih]
      simp
    · by_cases hbs : c == '\\'
      · have hc : c = '\\' := beq_iff_eq.mp hbs
        subst hc
        have he : escapeJsonChar '\\' = ['\\', '\\'] := rfl
        rw [he]
        simp only [List.cons_append, List.nil_append]
        rw [psb_backslash]
        rw [show ∀ r, parseStringEscape acc ('\\' :: r) = parseStringBody ('\\' :: acc) r from
          fun r => by simp [parseStringEscape]]
        rw [ih]
        simp
      · rw [Bool.not_eq_true] at hq hbs
        by_cases h8 : c.toNat = 8
        · have he : escapeJsonChar c = ['\\', 'b'] := by
            simp [escapeJsonChar, hq, hbs, h8]
          rw [he]
          simp only [List.cons_append, List.nil_append]
          rw [psb_backslash]
          rw [show ∀ r, parseStringEscape acc ('b' :: r) = parseStringBody (Char.ofNat 8 :: acc) r
            from fun r => by simp [parseStringEscape]]
          rw [← h8, charOfNat_toNat, ih]
          simp
        · by_cases h9 : c.toNat = 9
          · have he : escapeJsonChar c = ['\\', 't'] := by
              simp [escapeJsonChar, hq, hbs, h8, h9]
            rw [he]
            simp only [List.cons_append, List.nil_append]
            rw [psb_backslash]
            rw [show ∀ r, parseStringEscape acc ('t' :: r) =
              parseStringBody (Char.ofNat 9 :: acc) r from fun r => by simp [parseStringEscape]]
            rw [← h9, charOfNat_toNat, ih]
            simp
          · by_cases h10 : c.toNat = 10
            · have he : escapeJsonChar c = ['\\', 'n'] := by
                simp [escapeJsonChar, hq, hbs, h8, h9, h10]
              rw [he]
              simp only [List.cons_append, List.nil_append]
              rw [psb_backslash]
              rw [show ∀ r, parseStringEscape acc ('n' :: r) =
                parseStringBody (Char.ofNat 10 :: acc) r from
                fun r => by simp [parseStringEscape]]
              rw [← h10, charOfNat_toNat, ih]
              simp
            · by_cases h12 : c.toNat = 12
              · have he : escapeJsonChar c = ['\\', 'f'] := by
                  simp [escapeJsonChar, hq, hbs, h8, h9, h10, h12]
                rw [he]
                simp only [List.cons_append, List.nil_append]
                rw [psb_backslash]
                rw [show ∀ r, parseStringEscape acc ('f' :: r) =
                  parseStringBody (Char.ofNat 12 :: acc) r from
                  fun r => by simp [parseStringEscape]]
                rw [← h12, charOfNat_toNat, ih]
                simp
              · by_cases h13 : c.toNat = 13
                · have he : escapeJsonChar c = ['\\', 'r'] := by
                    simp [escapeJsonChar, hq, hbs, h8, h9, h10, h12, h13]
                  rw [he]
                  simp only [List.cons_append, List.nil_append]
                  rw [psb_backslash]
                  rw [show ∀ r, parseStringEscape acc ('r' :: r) =
                    parseStringBody (Char.ofNat 13 :: acc) r from
                    fun r => by simp [parseStringEscape]]
                  rw [← h13, charOfNat_toNat, ih]
                  simp
                · by_cases hlo : c.toNat < 0x20
                  · have he : escapeJsonChar c =
                        ['\\', 'u', '0', '0', hexLowerDigit (c.toNat / 16),
                          hexLowerDigit (c.toNat % 16)] := by
                      simp [escapeJsonChar, hq, hbs, h8, h9, h10, h12, h13, hlo]
                    rw [he]
                    simp only [List.cons_append, List.nil_append]
                    rw [psb_backslash]
                    rw [show ∀ r, parseStringEscape acc ('u' :: r) = parseStringUnicode acc r from
                      fun r => by simp [parseStringEscape]]
                    rw [psu_low acc c.toNat hlo, charOfNat_toNat, ih]
                    simp
                  · have he : escapeJsonChar c = [c] := by
                      simp [escapeJsonChar, hq, hbs, h8, h9, h10, h12, h13, hlo]
                    rw [he]
                    simp only [List.cons_append, List.nil_append]
                    rw [psb_ord acc c _ hq hbs hlo, ih]
                    simp

theorem str_eta (s : String) : (⟨s.data⟩ : String) = s := rfl

theorem pjv_succ_quote (f : Nat) (r : List Char) :
    parseJsonValue (f + 1) ('"' :: r) =
      (parseStringBody [] r).map (fun p => (Json.str p.1, p.2)) := by
  rw [show parseJsonValue (f + 1) ('"' :: r) = parseJsonValue (Nat.succ f) ('"' :: r) from rfl]
  simp only [parseJsonValue]
  rw [skipWs_cons_not '"' r (by decide)]
  rfl

theorem pjv_str (f : Nat) (s : String) (rest : List Char) :
    parseJsonValue (f + 1) (printJsonString s ++ rest) = some (.str s, rest) := by
  unfold printJsonString
  simp only [List.cons_append, List.append_assoc, List.singleton_append, List.nil_append]
  rw [pjv_succ_quote, parseStringBody_roundtrip s.data [] rest]
  simp [str_eta]

theorem pjf_succ_quote (f : Nat) (r : List Char) :
    parseJsonFieldsAux (f + 1) ('"' :: r) =
      (match parseStringBody [] r with
       | none => none
       | some (k, r1) =>
         match skipWs r1 with
         | ':' :: r2 =>
           (match parseJsonValue f r2 with
            | none => none
            | some (v, r3) =>
              match skipWs r3 with
              | ',' :: r4 => (parseJsonFieldsAux f r4).map (fun p => ((k, v) :: p.1, p.2))
              | '}' :: r4 => some ([(k, v)], r4)
              | _ => none)
         | _ => none) := by
  rw [show parseJsonFieldsAux (f + 1) ('"' :: r) = parseJsonFieldsAux (Nat.succ f) ('"' :: r)
    from rfl]
  simp only [parseJsonFieldsAux]
  rw [skipWs_cons_not '"' r (by decide)]
  rfl

theorem pjf_str : ∀ (kvs : List (String × Json)) (f : Nat) (rest : List Char),
    kvs ≠ [] → kvs.all (fun kv => isStrVal kv.2) = true →
    parseJsonFieldsAux (f + 2 * kvs.length) (printJsonFields kvs ++ '}' :: rest) =
      some (kvs, rest)
  | [], _, _, h, _ => absurd rfl h
  | [(k, v)], f, rest, _, hall => by
    obtain ⟨sv, rfl⟩ : ∃ sv, v = .str sv := by
      cases v <;> simp [isStrVal] at hall ⊢
    have hfe : f + 2 * [(k, Json.str sv)].length = (f + 1) + 1 := by
      simp [List.length_cons]
    rw [hfe]
    simp only [printJsonFields, printJson]
    rw [show printJsonString k = '"' :: (k.data.flatMap escapeJsonChar ++ ['"']) from rfl]
    simp only [List.cons_append, List.append_assoc, List.nil_append, List.singleton_append]
    rw [pjf_succ_quote, parseStringBody_roundtrip k.data [] _]
    simp only [List.reverse_nil, List.nil_append, str_eta]
    rw [skipWs_cons_not ':' _ (by decide)]
    simp only []
    rw [show (f + 1 : Nat) = f + 1 from rfl, pjv_str f sv ('}' :: rest)]
    simp only []
    rw [skipWs_cons_not '}' rest (by decide)]
    rfl
  | (k, v) :: (k2, v2) :: t, f, rest, _, hall => by
    have htl : ((k2, v2) :: t) ≠ [] := by simp
    have hall2 : ((k2, v2) :: t).all (fun kv => isStrVal kv.2) = true := by
      simp only [List.all_cons, Bool.and_eq_true] at hall
      simp [List.all_cons, hall.2]
    obtain ⟨sv, rfl⟩ : ∃ sv, v = .str sv := by
      simp only [List.all_cons, Bool.and_eq_true] at hall
      have := hall.1
      cases v <;> simp [isStrVal] at this ⊢
    have ih := pjf_str ((k2, v2) :: t) (f + 1) rest htl hall2
    have hfe : f + 2 * ((k, Json.str sv) :: (k2, v2) :: t).length = (f + 2 * t.length + 3) + 1 := by
      simp [List.length_cons]
      omega
    rw [hfe]
    simp only [printJsonFields, printJson]
    rw [show printJsonString k = '"' :: (k.data.flatMap escapeJsonChar ++ ['"']) from rfl]
    simp only [List.cons_append, List.append_assoc, List.nil_append, List.singleton_append]
    rw [pjf_succ_quote, parseStringBody_roundtrip k.data [] _]
    simp only [List.reverse_nil, List.nil_append, str_eta]
    rw [skipWs_cons_not ':' _ (by decide)]
    simp only []
    rw [show (f + 2 * t.length + 3 : Nat) = (f + 2 * t.length + 2) + 1 from rfl,
      pjv_str (f + 2 * t.length + 2) sv _]
    simp only []
    rw [skipWs_cons_not ',' _ (by decide)]
    simp only []
    rw [show (f + 2 * t.length + 2) + 1 = (f + 1) + 2 * ((k2, v2) :: t).length from by
      simp [List.length_cons]; omega]
    rw [ih]
    rfl

theorem pjv_succ_brace (f : Nat) (r : List Char) :
    parseJsonValue (f + 1) ('{' :: r) =
      (match skipWs r with
       | '}' :: r2 => some (.obj [], r2)
       | r2 => (parseJsonFieldsAux f r2).map (fun p => (.obj (dedupJsonFields p.1), p.2))) := by
  rw [show parseJsonValue (f + 1) ('{' :: r) = parseJsonValue (Nat.succ f) ('{' :: r) from rfl]
  simp only [parseJsonValue]
  rw [skipWs_cons_not '{' r (by decide)]
  rfl

theorem pjv_succ_brace_quote (f : Nat) (X : List Char) :
    parseJsonValue (f + 1) ('{' :: ('"' :: X)) =
      (parseJsonFieldsAux f ('"' :: X)).map (fun p => (Json.obj (dedupJsonFields p.1), p.2)) := by
  rw [pjv_succ_brace, skipWs_cons_not '"' X (by decide)]
  rfl

theorem printJsonFields_cons_head (k : String) (v : Json) (t : List (String × Json)) :
    ∃ X, printJsonFields ((k, v) :: t) = '"' :: X := by
  cases t with
  | nil =>
    exact ⟨(k.data.flatMap escapeJsonChar ++ ['"']) ++ ':' :: printJson v, by
      simp [printJsonFields, printJsonString]⟩
  | cons f2 t2 =>
    exact ⟨(k.data.flatMap escapeJsonChar ++ ['"']) ++ ':' :: printJson v ++
      ',' :: printJsonFields (f2 :: t2), by simp [printJsonFields, printJsonString]⟩

theorem pjv_objstr (f : Nat) (fs : List (String × Json)) (rest : List Char)
    (hall : fs.all (fun kv => isStrVal kv.2) = true) :
    parseJsonValue (f + (2 * fs.length + 2)) (printJson (.obj fs) ++ rest) =
      some (.obj (dedupJsonFields fs), rest) := by
  match fs with
  | [] =>
    simp only [printJson, printJsonFields, List.nil_append, List.cons_append,
      List.singleton_append]
    rw [show f + (2 * ([] : List (String × Json)).length + 2) = (f + 1) + 1 from by
      simp]
    rw [pjv_succ_brace]
    rw [skipWs_cons_not '}' rest (by decide)]
    rfl
  | (k, v) :: t =>
    have hne : ((k, v) :: t) ≠ [] := by simp
    obtain ⟨X, hX⟩ := printJsonFields_cons_head k v t
    simp only [printJson]
    rw [show f + (2 * ((k, v) :: t).length + 2) = (f + 1 + 2 * ((k, v) :: t).length) + 1 from by
      simp [List.length_cons]; omega]
    rw [List.cons_append, List.append_assoc, List.singleton_append]
    rw [hX, List.cons_append, pjv_succ_brace_quote]
    rw [← List.cons_append, ← hX]
    rw [pjf_str ((k, v) :: t) (f + 1) rest hne hall]
    rfl

theorem pjv_shallow (f : Nat) (v : Json) (rest : List Char) (hv : shallowVal v = true) :
    parseJsonValue (f + valCost v) (printJson v ++ rest) = some (normVal v, rest) := by
  match v with
  | .str s =>
    rw [show valCost (.str s) = 1 from rfl, show normVal (.str s) = .str s from rfl,
      show printJson (.str s) = printJsonString s from rfl]
    exact pjv_str f s rest
  | .obj fs =>
    have hall : fs.all (fun kv => isStrVal kv.2) = true := by simpa [shallowVal] using hv
    rw [show valCost (.obj fs) = 2 * fs.length + 2 from rfl,
      show normVal (.obj fs) = .obj (dedupJsonFields fs) from rfl]
    exact pjv_objstr f fs rest hall
  | .null => simp [shallowVal] at hv
  | .bool b => simp [shallowVal] at hv
  | .num n => simp [shallowVal] at hv
  | .arr a => simp [shallowVal] at hv

theorem pjf_shallow : ∀ (kvs : List (String × Json)) (f : Nat) (rest : List Char),
    kvs ≠ [] → kvs.all (fun kv => shallowVal kv.2) = true →
    parseJsonFieldsAux (f + fieldsCost kvs) (printJsonFields kvs ++ '}' :: rest) =
      some (kvs.map (fun kv => (kv.1, normVal kv.2)), rest)
  | [], _, _, h, _ => absurd rfl h
  | [(k, v)], f, rest, _, hall => by
    have hv : shallowVal v = true := by
      simpa [List.all_cons] using hall
    have hfe : f + fieldsCost [(k, v)] = (f + valCost v) + 1 := by
      simp [fieldsCost]
      omega
    rw [hfe]
    simp only [printJsonFields]
    rw [show printJsonString k = '"' :: (k.data.flatMap escapeJsonChar ++ ['"']) from rfl]
    simp only [List.cons_append, List.append_assoc, List.nil_append, List.singleton_append]
    rw [pjf_succ_quote, parseStringBody_roundtrip k.data [] _]
    simp only [List.reverse_nil, List.nil_append, str_eta]
    rw [skipWs_cons_not ':' _ (by decide)]
    simp only []
    rw [pjv_shallow f v ('}' :: rest) hv]
    simp only []
    rw [skipWs_cons_not '}' rest (by decide)]
    rfl
  | (k, v) :: (k2, v2) :: t, f, rest, _, hall => by
    have hv : shallowVal v = true := by
      simp only [List.all_cons, Bool.and_eq_true] at hall
      exact hall.1
    have htl : ((k2, v2) :: t) ≠ [] := by simp
    have hall2 : ((k2, v2) :: t).all (fun kv => shallowVal kv.2) = true := by
      simp only [List.all_cons, Bool.and_eq_true] at hall
      simp [List.all_cons, hall.2]
    have ih := pjf_shallow ((k2, v2) :: t) (f + valCost v) rest htl hall2
    have hfe : f + fieldsCost ((k, v) :: (k2, v2) :: t) =
        (f + valCost v + fieldsCost ((k2, v2) :: t)) + 1 := by
      rw [show fieldsCost ((k, v) :: (k2, v2) :: t) =
        valCost v + 1 + fieldsCost ((k2, v2) :: t) from rfl]
      omega
    rw [hfe]
    simp only [printJsonFields]
    rw [show printJsonString k = '"' :: (k.data.flatMap escapeJsonChar ++ ['"']) from rfl]
    simp only [List.cons_append, List.append_assoc, List.nil_append, List.singleton_append]
    rw [pjf_succ_quote, parseStringBody_roundtrip k.data [] _]
    simp only [List.reverse_nil, List.nil_append, str_eta]
    rw [skipWs_cons_not ':' _ (by decide)]
    simp only []
    rw [show f + valCost v + fieldsCost ((k2, v2) :: t) =
      (f + fieldsCost ((k2, v2) :: t)) + valCost v from by omega]
    rw [pjv_shallow (f + fieldsCost ((k2, v2) :: t)) v _ hv]
    simp only []
    rw [skipWs_cons_not ',' _ (by decide)]
    simp only []
    rw [show (f + fieldsCost ((k2, v2) :: t)) + valCost v =
      (f + valCost v) + fieldsCost ((k2, v2) :: t) from by omega]
    rw [ih]
    rfl

theorem pjv_objshallow (f : Nat) (fs : List (String × Json)) (rest : List Char)
    (hall : fs.all (fun kv => shallowVal kv.2) = true) :
    parseJsonValue (f + (fieldsCost fs + 2)) (printJson (.obj fs) ++ rest) =
      some (.obj (dedupJsonFields (fs.map (fun kv => (kv.1, normVal kv.2)))), rest) := by
  match fs with
  | [] =>
    simp only [printJson, printJsonFields, List.nil_append, List.cons_append,
      List.singleton_append]
    rw [show f + (fieldsCost ([] : List (String × Json)) + 2) = (f + 1) + 1 from by
      simp [fieldsCost]]
    rw [pjv_succ_brace]
    rw [skipWs_cons_not '}' rest (by decide)]
    rfl
  | (k, v) :: t =>
    have hne : ((k, v) :: t) ≠ [] := by simp
    obtain ⟨X, hX⟩ := printJsonFields_cons_head k v t
    simp only [printJson]
    rw [show f + (fieldsCost ((k, v) :: t) + 2) = (f + 1 + fieldsCost ((k, v) :: t)) + 1 from by
      omega]
    rw [List.cons_append, List.append_assoc, List.singleton_append]
    rw [hX, List.cons_append, pjv_succ_brace_quote]
    rw [← List.cons_append, ← hX]
    rw [pjf_shallow ((k, v) :: t) (f + 1) rest hne hall]
    rfl

theorem foldl_insert_nodup : ∀ (fs acc : List (String × Json)),
    (∀ kv ∈ fs, acc.any (fun p => p.1 == kv.1) = false) → keysNodup fs = true →
    fs.foldl insertJsonField acc = acc ++ fs
  | [], acc, _, _ => by simp
  | (k, v) :: t, acc, hd, hn => by
    simp only [keysNodup, Bool.and_eq_true, Bool.not_eq_true'] at hn
    have hins : insertJsonField acc (k, v) = acc ++ [(k, v)] := by
      unfold insertJsonField
      rw [if_neg]
      rw [hd (k, v) (by simp)]
      simp
    rw [List.foldl_cons, hins]
    rw [foldl_insert_nodup t (acc ++ [(k, v)]) ?_ hn.2]
    · simp
    · intro kv hkv
      rw [List.any_append]
      rw [hd kv (by simp [hkv])]
      simp only [List.any_cons, List.any_nil, Bool.or_false, Bool.false_or]
      have h2 : ¬ kv.1 = k := by simpa using (List.any_eq_false.mp hn.1) kv hkv
      have h3 : (k == kv.1) = false := beq_eq_false_iff_ne.mpr (fun he => h2 he.symm)
      simpa using h3

theorem dedup_nodup (fs : List (String × Json)) (h : keysNodup fs = true) :
    dedupJsonFields fs = fs := by
  unfold dedupJsonFields
  rw [foldl_insert_nodup fs [] (by simp) h]
  simp

theorem any_key_strPairs (t : List (String × String)) (k : String) :
    (strPairs t).any (fun p => p.1 == k) = t.any (fun p => p.1 == k) := by
  induction t with
  | nil => rfl
  | cons hd tl ih =>
    simp only [strPairs, List.map_cons, List.any_cons] at ih ⊢
    rw [ih]

theorem keysNodup_strPairs (l : List (String × String)) : keysNodup (strPairs l) = keysNodup l := by
  induction l with
  | nil => rfl
  | cons hd t ih =>
    obtain ⟨k, v⟩ := hd
    simp only [strPairs, List.map_cons] at ih ⊢
    simp only [keysNodup, ih]
    rw [show (List.map (fun p => (p.1, Json.str p.2)) t) = strPairs t from rfl, any_key_strPairs]


theorem escapeJsonChar_len (c : Char) : 1 ≤ (escapeJsonChar c).length := by
  unfold escapeJsonChar
  repeat' split
  all_goals simp

theorem flatMap_len_ge {α β : Type} (f : α → List β) (hf : ∀ a, 1 ≤ (f a).length) :
    ∀ l : List α, l.length ≤ (l.flatMap f).length
  | [] => by simp
  | a :: t => by
    rw [List.flatMap_cons, List.length_append, List.length_cons]
    have h1 := hf a
    have h2 := flatMap_len_ge f hf t
    omega

theorem printJsonString_len (s : String) : s.length + 2 ≤ (printJsonString s).length := by
  unfold printJsonString
  simp only [List.length_append, List.length_cons, List.length_singleton]
  have := flatMap_len_ge escapeJsonChar escapeJsonChar_len s.data
  have hs : s.length = s.data.length := rfl
  omega

theorem valCost_le_printLen (v : Json) (hv : shallowVal v = true) :
    valCost v ≤ (printJson v).length := by
  match v with
  | .str s =>
    rw [show valCost (.str s) = 1 from rfl, show printJson (.str s) = printJsonString s from rfl]
    have := printJsonString_len s
    omega
  | .obj fs =>
    rw [show valCost (.obj fs) = 2 * fs.length + 2 from rfl]
    rw [show printJson (.obj fs) = '{' :: (printJsonFields fs ++ ['}']) from rfl]
    rw [List.length_cons, List.length_append, List.length_singleton]
    have : 2 * fs.length ≤ (printJsonFields fs).length := by
      clear hv
      induction fs with
      | nil => simp
      | cons hd t ih =>
        obtain ⟨k, w⟩ := hd
        match t with
        | [] =>
          rw [show printJsonFields [(k, w)] = printJsonString k ++ ':' :: printJson w from rfl]
          rw [List.length_append, List.length_cons]
          have := printJsonString_len k
          simp only [List.length_cons, List.length_nil]
          omega
        | hd2 :: t2 =>
          rw [show printJsonFields ((k, w) :: hd2 :: t2) =
            printJsonString k ++ ':' :: printJson w ++ ',' :: printJsonFields (hd2 :: t2)
            from rfl]
          rw [List.length_append, List.length_cons, List.length_append, List.length_cons]
          have h1 := printJsonString_len k
          simp only [List.length_cons] at ih ⊢
          omega
    omega
  | .null => simp [shallowVal] at hv
  | .bool b => simp [shallowVal] at hv
  | .num n => simp [shallowVal] at hv
  | .arr a => simp [shallowVal] at hv

theorem fieldsCost_le_printLen : ∀ kvs : List (String × Json),
    kvs.all (fun kv => shallowVal kv.2) = true →
    fieldsCost kvs ≤ (printJsonFields kvs).length + 1
  | [], _ => by simp [fieldsCost]
  | [(k, v)], hall => by
    have hv : shallowVal v = true := by simpa using hall
    rw [show fieldsCost [(k, v)] = valCost v + 1 + fieldsCost [] from rfl,
      show fieldsCost ([] : List (String × Json)) = 0 from rfl,
      show printJsonFields [(k, v)] = printJsonString k ++ ':' :: printJson v from rfl]
    rw [List.length_append, List.length_cons]
    have h1 := printJsonString_len k
    have h2 := valCost_le_printLen v hv
    omega
  | (k, v) :: hd2 :: t2, hall => by
    have hv : shallowVal v = true := by
      simp only [List.all_cons, Bool.and_eq_true] at hall
      exact hall.1
    have htl : (hd2 :: t2).all (fun kv => shallowVal kv.2) = true := by
      simp only [List.all_cons, Bool.and_eq_true] at hall
      simp [List.all_cons, hall.2]
    have ih := fieldsCost_le_printLen (hd2 :: t2) htl
    rw [show fieldsCost ((k, v) :: hd2 :: t2) = valCost v + 1 + fieldsCost (hd2 :: t2) from rfl,
      show printJsonFields ((k, v) :: hd2 :: t2) =
        printJsonString k ++ ':' :: printJson v ++ ',' :: printJsonFields (hd2 :: t2) from rfl]
    rw [List.length_append, List.length_cons, List.length_append, List.length_cons]
    have h1 := printJsonString_len k
    have h2 := valCost_le_printLen v hv
    omega

theorem strPairs_all_isStr (l : List (String × String)) :
    (strPairs l).all (fun kv => isStrVal kv.2) = true := by
  induction l with
  | nil => rfl
  | cons hd t ih => simp [strPairs, isStrVal] at ih ⊢; exact ih

theorem jsonParse_print_obj (fs : List (String × Json))
    (hall : fs.all (fun kv => shallowVal kv.2) = true)
    (hnorm : dedupJsonFields (fs.map (fun kv => (kv.1, normVal kv.2))) = fs) :
    jsonParse (printJsonStr (.obj fs)) = some (.obj fs) := by
  unfold jsonParse printJsonStr
  have hdata : (⟨printJson (.obj fs)⟩ : String).data = printJson (.obj fs) := rfl
  have hlen : (⟨printJson (.obj fs)⟩ : String).length = (printJson (.obj fs)).length := rfl
  rw [hdata, hlen]
  have hge : fieldsCost fs + 2 ≤ (printJson (.obj fs)).length + 1 := by
    have := fieldsCost_le_printLen fs hall
    rw [show printJson (.obj fs) = '{' :: (printJsonFields fs ++ ['}']) from rfl]
    simp only [List.length_cons, List.length_append, List.length_singleton]
    omega
  rw [show (printJson (.obj fs)).length + 1 =
    ((printJson (.obj fs)).length + 1 - (fieldsCost fs + 2)) + (fieldsCost fs + 2) from by omega]
  have happ : parseJsonValue
      ((printJson (.obj fs)).length + 1 - (fieldsCost fs + 2) + (fieldsCost fs + 2))
      (printJson (.obj fs)) =
      parseJsonValue
      ((printJson (.obj fs)).length + 1 - (fieldsCost fs + 2) + (fieldsCost fs + 2))
      (printJson (.obj fs) ++ []) := by simp
  rw [happ, pjv_objshallow _ fs [] hall, hnorm]
  rfl

theorem jsonParse_print_state (s : AppState)
    (h1 : keysNodup s.pathParams = true) (h2 : keysNodup s.queryParams = true)
    (h3 : keysNodup s.headerParams = true) :
    jsonParse (printJsonStr (jsonOfAppState s)) = some (jsonOfAppState s) := by
  have hd1 : dedupJsonFields (strPairs s.pathParams) = strPairs s.pathParams :=
    dedup_nodup _ (by rw [keysNodup_strPairs]; exact h1)
  have hd2 : dedupJsonFields (strPairs s.queryParams) = strPairs s.queryParams :=
    dedup_nodup _ (by rw [keysNodup_strPairs]; exact h2)
  have hd3 : dedupJsonFields (strPairs s.headerParams) = strPairs s.headerParams :=
    dedup_nodup _ (by rw [keysNodup_strPairs]; exact h3)
  unfold jsonOfAppState
  rcases s.specUrl with _ | u <;> rcases s.operationKey with _ | k <;>
    · apply jsonParse_print_obj
      · simp [shallowVal, strPairs_all_isStr]
        exact ⟨fun a b x y _ _ hb => hb ▸ rfl, fun a b x y _ _ hb => hb ▸ rfl,
          fun a b x y _ _ hb => hb ▸ rfl⟩
      · simp only [List.append_assoc, List.cons_append, List.nil_append, List.map_cons,
          List.map_nil, normVal]
        rw [show (List.map (fun p => (p.1, Json.str p.2)) s.pathParams) = strPairs s.pathParams
            from rfl,
          show (List.map (fun p => (p.1, Json.str p.2)) s.queryParams) = strPairs s.queryParams
            from rfl,
          show (List.map (fun p => (p.1, Json.str p.2)) s.headerParams) = strPairs s.headerParams
            from rfl] at *
        rw [hd1, hd2, hd3]
        apply dedup_nodup
        simp [keysNodup]

theorem strPairs_all_asString (l : List (String × String)) :
    (strPairs l).all (fun kv => kv.2.asString.isSome) = true := by
  induction l with
  | nil => rfl
  | cons hd t ih => simp [strPairs, Json.asString] at ih ⊢; exact ih

theorem zodRecordOf_strPairs (l : List (String × String)) :
    zodRecordOf (some (.obj (strPairs l))) = l := by
  unfold zodRecordOf
  simp only []
  rw [if_pos (strPairs_all_asString l)]
  unfold strPairs
  rw [List.map_map]
  have : ((fun kv => (kv.1, kv.2.asString.getD "")) ∘ fun p => (p.1, Json.str p.2)) =
      fun p : String × String => (p.1, p.2) := by
    funext p
    simp [Function.comp, Json.asString]
  rw [this]
  simp

theorem schemaParse_print_state (s : AppState)
    (hb : (zodUrlValid s.baseUrl || s.baseUrl == "") = true)
    (hsu : (match s.specUrl with | some u => zodUrlValid u | none => true) = true) :
    appStateSchemaParse (jsonOfAppState s) = some s := by
  obtain ⟨bu, su, ok, mm, mp, pp, qp, hp, ct, bj⟩ := s
  simp only [] at hb hsu
  have hbase : (if zodUrlValid bu = true then bu else "") = bu := by
    by_cases hz : zodUrlValid bu = true
    · rw [if_pos hz]
    · rw [if_neg hz]
      rw [Bool.or_eq_true] at hb
      have hbe : (bu == "") = true := by
        rcases hb with hb | hb
        · exact absurd hb hz
        · exact hb
      exact (beq_iff_eq.mp hbe).symm
  unfold jsonOfAppState
  rcases su with _ | u <;> rcases ok with _ | k <;>
    · simp only [List.append_assoc, List.cons_append, List.nil_append]
      simp [appStateSchemaParse, appStateKnownKeys, Json.getField, hsu]
      have hA : zodUrlValid bu = false → "" = bu := fun hz => by
        rw [Bool.or_eq_true] at hb
        rcases hb with hb | hb
        · rw [hz] at hb; cases hb
        · exact (beq_iff_eq.mp hb).symm
      first
      | exact ⟨hA, zodRecordOf_strPairs pp, zodRecordOf_strPairs qp, zodRecordOf_strPairs hp⟩
      | exact ⟨hA, by simpa using hsu, zodRecordOf_strPairs pp, zodRecordOf_strPairs qp,
          zodRecordOf_strPairs hp⟩

theorem utf8EncodeChar_lt_256 (c : Char) : ∀ x ∈ utf8EncodeChar c, x < 256 := by
  have hv := char_toNat_valid c
  unfold utf8EncodeChar
  intro x hx
  by_cases h1 : c.toNat < 0x80
  · rw [if_pos h1] at hx
    simp at hx
    omega
  · rw [if_neg h1] at hx
    by_cases h2 : c.toNat < 0x800
    · rw [if_pos h2] at hx
      simp at hx
      rcases hx with hx | hx <;> omega
    · rw [if_neg h2] at hx
      by_cases h3 : c.toNat < 0x10000
      · rw [if_pos h3] at hx
        simp at hx
        rcases hx with hx | hx | hx <;> omega
      · rw [if_neg h3] at hx
        simp at hx
        have hlt : c.toNat < 0x110000 := by omega
        rcases hx with hx | hx | hx | hx <;> omega

theorem utf8Encode_lt_256 (s : String) : ∀ x ∈ utf8Encode s, x < 256 := by
  unfold utf8Encode
  intro x hx
  rw [List.mem_flatMap] at hx
  obtain ⟨c, _, hc⟩ := hx
  exact utf8EncodeChar_lt_256 c x hc

theorem inflate_deflate (s : String) : inflateToString (deflateM s) = s := by
  unfold inflateToString deflateM
  rw [utf8DecodeLossy_utf8Encode]

theorem utf8Encode_len_ge (s : String) : s.data.length ≤ (utf8Encode s).length := by
  unfold utf8Encode
  apply flatMap_len_ge
  intro c
  unfold utf8EncodeChar
  dsimp only
  split
  · simp
  · split
    · simp
    · split <;> simp

theorem b64core_ne_nil (bytes : List Nat) (h : bytes ≠ []) : b64core bytes ≠ [] := by
  match bytes, h with
  | b :: t, _ =>
    cases t with
    | nil => simp [b64core]
    | cons b2 t2 => cases t2 <;> simp [b64core]

theorem encodeBase64Url_ne_nil (bytes : List Nat) (h : bytes ≠ []) :
    encodeBase64Url bytes ≠ [] := by
  rw [encodeBase64Url_eq]
  simp only [ne_eq, List.map_eq_nil_iff]
  exact b64core_ne_nil bytes h

theorem decode_encode (s : AppState)
    (hvalid : validAppState s = true)
    (hsize : (deflateM (printJsonStr (jsonOfAppState s))).length ≤ maxStateBytes) :
    decodeStateFromSearchParam (some (encodeStateToSearchParam s)) = s := by
  unfold validAppState at hvalid
  simp only [Bool.and_eq_true] at hvalid
  obtain ⟨⟨⟨⟨hb, hsu⟩, h1⟩, h2⟩, h3⟩ := hvalid
  have hlt : ∀ x ∈ deflateM (printJsonStr (jsonOfAppState s)), x < 256 := utf8Encode_lt_256 _
  have hdec : decodeBase64Url ⟨encodeBase64Url (deflateM (printJsonStr (jsonOfAppState s)))⟩ =
      some (deflateM (printJsonStr (jsonOfAppState s))) :=
    decodeBase64Url_encodeBase64Url _ hlt
  have hb0 : deflateM (printJsonStr (jsonOfAppState s)) ≠ [] := by
    have hge : (printJsonStr (jsonOfAppState s)).data.length ≤
        (deflateM (printJsonStr (jsonOfAppState s))).length := utf8Encode_len_ge _
    have hjl : 1 ≤ (printJsonStr (jsonOfAppState s)).data.length := by
      rw [show (printJsonStr (jsonOfAppState s)).data = printJson (jsonOfAppState s) from rfl]
      rw [show printJson (jsonOfAppState s) =
        '{' :: (printJsonFields ([("baseUrl", Json.str s.baseUrl)] ++
          (match s.specUrl with | some u => [("specUrl", Json.str u)] | none => []) ++
          (match s.operationKey with | some k => [("operationKey", Json.str k)] | none => []) ++
          [("manualMethod", Json.str s.manualMethod),
           ("manualPath", Json.str s.manualPath),
           ("pathParams", Json.obj (s.pathParams.map (fun p => (p.1, Json.str p.2)))),
           ("queryParams", Json.obj (s.queryParams.map (fun p => (p.1, Json.str p.2)))),
           ("headerParams", Json.obj (s.headerParams.map (fun p => (p.1, Json.str p.2)))),
           ("contentType", Json.str s.contentType),
           ("bodyJson", Json.str s.bodyJson)]) ++ ['}']) from rfl]
      simp
    intro hcontra
    rw [hcontra, List.length_nil] at hge
    omega
  have hnes : ((⟨encodeBase64Url (deflateM (printJsonStr (jsonOfAppState s)))⟩ : String) == "")
      = false := by
    rw [beq_eq_false_iff_ne]
    intro hcontra
    apply encodeBase64Url_ne_nil _ hb0
    simpa using congrArg String.data hcontra
  unfold decodeStateFromSearchParam encodeStateToSearchParam
  simp only [hnes, Bool.false_eq_true, if_false]
  rw [hdec]
  dsimp only
  rw [if_neg (Nat.not_lt.mpr hsize)]
  rw [inflate_deflate]
  rw [jsonParse_print_state s h1 h2 h3]
  simp only []
  rw [schemaParse_print_state s hb hsu]

theorem decode_oversize (t : String) (bytes : List Nat)
    (hdec : decodeBase64Url t = some bytes) (hlen : maxStateBytes < bytes.length) :
    decodeStateFromSearchParam (some t) = defaultAppState := by
  unfold decodeStateFromSearchParam
  dsimp only
  by_cases ht : (t == "") = true
  · rw [if_pos ht]
  · rw [if_neg ht, hdec]
    dsimp only
    rw [if_pos hlen]

theorem decode_schema_fail (t : String) (bytes : List Nat) (j : Json)
    (hdec : decodeBase64Url t = some bytes) (hlen : bytes.length ≤ maxStateBytes)
    (hjson : jsonParse (inflateToString bytes) = some j)
    (hschema : appStateSchemaParse j = none) :
    decodeStateFromSearchParam (some t) = defaultAppState := by
  unfold decodeStateFromSearchParam
  dsimp only
  by_cases ht : (t == "") = true
  · rw [if_pos ht]
  · rw [if_neg ht, hdec]
    dsimp only
    rw [if_neg (Nat.not_lt.mpr hlen), hjson]
    dsimp only
    rw [hschema]

theorem lcgChars_length : ∀ (n x : Nat), (lcgChars n x).length = n
  | 0, _ => rfl
  | n + 1, x => by
    rw [show lcgChars (n + 1) x = Char.ofNat (97 + x % 26) :: lcgChars n (lcgNext x) from rfl]
    rw [List.length_cons, lcgChars_length n (lcgNext x)]

theorem pf_last_ge : ∀ (kvs : List (String × Json)) (k : String) (v : Json),
    (printJson v).length ≤ (printJsonFields (kvs ++ [(k, v)])).length
  | [], k, v => by
    simp only [List.nil_append]
    rw [show printJsonFields [(k, v)] = printJsonString k ++ ':' :: printJson v from rfl]
    simp only [List.length_append, List.length_cons]
    omega
  | (k0, v0) :: t, k, v => by
    have ih := pf_last_ge t k v
    obtain ⟨f2, fs2, heq⟩ : ∃ f2 fs2, t ++ [(k, v)] = f2 :: fs2 := by
      cases t <;> exact ⟨_, _, rfl⟩
    rw [List.cons_append, heq]
    rw [show printJsonFields ((k0, v0) :: f2 :: fs2) =
      printJsonString k0 ++ ':' :: printJson v0 ++ ',' :: printJsonFields (f2 :: fs2) from rfl]
    rw [← heq]
    simp only [List.length_append, List.length_cons]
    omega

theorem state_payload_ge (s : AppState) :
    s.bodyJson.length + 2 ≤ (deflateM (printJsonStr (jsonOfAppState s))).length := by
  have hsplit : jsonOfAppState s = Json.obj (([("baseUrl", Json.str s.baseUrl)] ++
      (match s.specUrl with | some u => [("specUrl", Json.str u)] | none => []) ++
      (match s.operationKey with | some k => [("operationKey", Json.str k)] | none => []) ++
      [("manualMethod", Json.str s.manualMethod), ("manualPath", Json.str s.manualPath),
       ("pathParams", Json.obj (s.pathParams.map (fun p => (p.1, Json.str p.2)))),
       ("queryParams", Json.obj (s.queryParams.map (fun p => (p.1, Json.str p.2)))),
       ("headerParams", Json.obj (s.headerParams.map (fun p => (p.1, Json.str p.2)))),
       ("contentType", Json.str s.contentType)]) ++ [("bodyJson", Json.str s.bodyJson)]) := by
    unfold jsonOfAppState
    simp [List.append_assoc]
  have hpf := pf_last_ge ([("baseUrl", Json.str s.baseUrl)] ++
      (match s.specUrl with | some u => [("specUrl", Json.str u)] | none => []) ++
      (match s.operationKey with | some k => [("operationKey", Json.str k)] | none => []) ++
      [("manualMethod", Json.str s.manualMethod), ("manualPath", Json.str s.manualPath),
       ("pathParams", Json.obj (s.pathParams.map (fun p => (p.1, Json.str p.2)))),
       ("queryParams", Json.obj (s.queryParams.map (fun p => (p.1, Json.str p.2)))),
       ("headerParams", Json.obj (s.headerParams.map (fun p => (p.1, Json.str p.2)))),
       ("contentType", Json.str s.contentType)]) "bodyJson" (Json.str s.bodyJson)
  have hstr : s.bodyJson.length + 2 ≤ (printJson (Json.str s.bodyJson)).length := by
    rw [show printJson (Json.str s.bodyJson) = printJsonString s.bodyJson from rfl]
    exact printJsonString_len s.bodyJson
  have hge : (printJsonStr (jsonOfAppState s)).data.length ≤
      (deflateM (printJsonStr (jsonOfAppState s))).length := utf8Encode_len_ge _
  have hdata : (printJsonStr (jsonOfAppState s)).data = printJson (jsonOfAppState s) := rfl
  rw [hdata] at hge
  nth_rewrite 1 [hsplit] at hge
  rw [show ∀ L : List (String × Json), printJson (Json.obj L) =
    '{' :: (printJsonFields L ++ ['}']) from fun L => rfl] at hge
  rw [List.length_cons, List.length_append, List.length_singleton] at hge
  omega

theorem bigState_payload_gt :
    maxStateBytes < (deflateM (printJsonStr (jsonOfAppState bigState))).length := by
  have h := state_payload_ge bigState
  have hl : bigState.bodyJson.length = 60000 := by
    rw [show bigState.bodyJson = ⟨lcgChars 60000 1⟩ from rfl,
      show (⟨lcgChars 60000 1⟩ : String).length = (lcgChars 60000 1).length from rfl,
      lcgChars_length]
  rw [hl] at h
  rw [show maxStateBytes = 20000 from rfl]
  omega

theorem bigState_valid : validAppState bigState = true := by decide

theorem bigState_ne_default : bigState ≠ defaultAppState := by
  intro h
  have hb : (⟨lcgChars 60000 1⟩ : String) = "" := congrArg AppState.bodyJson h
  have hd : lcgChars 60000 1 = [] := congrArg String.data hb
  have hl : (lcgChars 60000 1).length = 0 := by rw [hd]; rfl
  rw [lcgChars_length] at hl
  simp at hl

theorem bigState_decode_default :
    decodeStateFromSearchParam (some (encodeStateToSearchParam bigState)) = defaultAppState := by
  apply decode_oversize _ (deflateM (printJsonStr (jsonOfAppState bigState)))
  · exact decodeBase64Url_encodeBase64Url _ (utf8Encode_lt_256 _)
  · exact bigState_payload_gt

/-- C9: for every schema-valid state whose serialised payload fits the
20,000-byte cap, decoding the encoded search parameter reproduces the exact
state; an oversized payload or a schema failure falls back to the default
state. -/
theorem C9_state_codec_roundtrip :
    (∀ s : AppState, validAppState s = true →
        (deflateM (printJsonStr (jsonOfAppState s))).length ≤ maxStateBytes →
        decodeStateFromSearchParam (some (encodeStateToSearchParam s)) = s) ∧
    (∀ (t : String) (bytes : List Nat), decodeBase64Url t = some bytes →
        maxStateBytes < bytes.length →
        decodeStateFromSearchParam (some t) = defaultAppState) ∧
    (∀ (t : String) (bytes : List Nat) (j : Json), decodeBase64Url t = some bytes →
        bytes.length ≤ maxStateBytes → jsonParse (inflateToString bytes) = some j →
        appStateSchemaParse j = none →
        decodeStateFromSearchParam (some t) = defaultAppState) :=
  ⟨decode_encode, decode_oversize, decode_schema_fail⟩

set_option maxRecDepth 8000 in
theorem C9_state_codec_roundtrip_witness :
    decodeStateFromSearchParam (some (encodeStateToSearchParam c9State)) = c9State :=
  C9_state_codec_roundtrip.1 c9State (by decide) (by decide)

/-- C9 counterexample: a schema-valid state with a 60,000-character body
(incompressible even for real DEFLATE) decodes to the default state, not to
itself, so the unconditional round-trip half of the claim fails. -/
theorem C9_counterexample :
    validAppState bigState = true ∧ bigState ≠ defaultAppState ∧
    decodeStateFromSearchParam (some (encodeStateToSearchParam bigState)) = defaultAppState :=
  ⟨bigState_valid, bigState_ne_default, bigState_decode_default⟩
